import Mathlib

/-!
# goose: command dispatcher, `makeParams` and `RedoCtx`

A shallow embedding of `goose.go` and `redo.go`.

* Go strings are Lean strings; string scanning works on the character list. The Go library
  scans bytes: `=`, `+`, `-` and the digits are one byte each, and every byte of a longer
  character is 0x80 or more, which the byte loops treat like any other character that is
  neither a digit nor a letter.
* `int64` values are integers, with an explicit wrap (`toInt64`) where the Go code converts.
* Everything the two files call but do not define (`CollectMigrations`, `GetDBVersionCtx`,
  `Migrations.Current`, `Migration.DownCtx`, `Migration.UpCtx` and the command handlers) is a
  field of `Env`: an arbitrary function of the outside world `σ` (database and file system)
  that hands back a result and the next world.
* `World.log` is a ghost log: every call of a collaborator appends one `Event`, so that the
  theorems can speak about which calls were made and in which order.
-/

namespace Goose

/-! ## Errors -/

/-- Modelled from the spec: the error taxonomy of section 7 for the components that are not
part of `goose.go` and `redo.go` (`InvalidArgument` is `ErrInvalidArgument` below). -/
inductive ErrorKind where
  | MalformedIdentifier
  | UnsupportedKind
  | DuplicateVersionError
  | NotFoundError
  | StoreUnavailableError
  | WriteError
  | TemplateError
  | CreateConflictError
  | Cancelled
  deriving DecidableEq, Repr

/-- Go error values seen by `run`, `makeParams` and `RedoCtx`. An error value handed back by a
collaborator is passed on as it is (`collab`); `errorf` is a value built by `fmt.Errorf` inside
`run`, with its text; `ErrInvalidArgument` is the package variable of `goose.go` line 23. -/
inductive Error where
  | ErrInvalidArgument
  | errorf (text : String)
  | collab (kind : ErrorKind)
  deriving DecidableEq, Repr

/-- The `if err != nil { return err }` of a collaborator call: `nil` stays `nil`. -/
def liftErr : Option ErrorKind → Option Error
  | none => none
  | some e => some (Error.collab e)

/-! ## Data model -/

/-- `minVersion = int64(0)`. -/
def minVersion : Int := 0

/-- `maxVersion = int64((1 << 63) - 1)`. -/
def maxVersion : Int := 2 ^ 63 - 1

/-- Modelled from the spec: the kind marker of a Migration (section 3). -/
inductive Kind where
  | DeclarativeScript
  | ProceduralCode
  deriving DecidableEq, Repr

/-- Modelled from the spec: the Migration record (section 3). `redo.go` reads `Version` and
writes `noVersioning`; the Up and Down actions are run through `Env.MigrationUpCtx` and
`Env.MigrationDownCtx`. -/
structure Migration where
  Version : Int
  kind : Kind
  noVersioning : Bool
  deriving DecidableEq, Repr

/-- The type `Migrations`, a slice of migrations. -/
abbrev Migrations := List Migration

/-- Modelled from the spec: the `options` struct (RunOptions of section 3). -/
structure options where
  noVersioning : Bool := false
  allowMissing : Bool := false
  applyUpByOne : Bool := false
  deriving DecidableEq, Repr

/-- `OptionsFunc`: a function that updates the `options`. -/
abbrev OptionsFunc := options → options

/-- A Go `map[string]string` value that is not nil: an association list with one entry per key. -/
abbrev GoMap := List (String × String)

/-- Reading `m[k]`, with the presence flag. -/
def GoMap.get? (m : GoMap) (k : String) : Option String :=
  (m.find? (fun p => p.1 = k)).map (fun p => p.2)

/-- The assignment `m[k] = v`: an earlier entry for `k` is replaced. -/
def GoMap.set (m : GoMap) (k v : String) : GoMap :=
  (k, v) :: m.filter (fun p => p.1 ≠ k)

/-- One call of a collaborator, as recorded in the ghost log. -/
inductive Event where
  | CollectMigrations (dir : String) (lo hi : Int)
  | GetDBVersionCtx
  | Current (version : Int)
  | MigrationDownCtx (m : Migration)
  | MigrationUpCtx (m : Migration)
  | UpCtx (dir : String)
  | UpByOneCtx (dir : String)
  | UpToCtx (dir : String) (version : Int)
  | Create (dir name migrationType : String) (params : Option GoMap)
  | DownCtx (dir : String)
  | DownToCtx (dir : String) (version : Int)
  | Fix (dir : String)
  | ResetCtx (dir : String)
  | StatusCtx (dir : String)
  | VersionCtx (dir : String)
  deriving DecidableEq, Repr

/-- The collaborators of `goose.go` and `redo.go`. `σ` is the outside world. `ctx` and `db`
are not arguments: the database is part of the world. `Quote` is `strconv.Quote`, the
rendering of the verb `%q`. -/
structure Env (σ : Type) where
  CollectMigrations : String → Int → Int → σ → Except ErrorKind Migrations × σ
  GetDBVersionCtx : σ → Except ErrorKind Int × σ
  Current : Migrations → Int → Except ErrorKind Migration
  MigrationDownCtx : Migration → σ → Option ErrorKind × σ
  MigrationUpCtx : Migration → σ → Option ErrorKind × σ
  UpCtx : String → List OptionsFunc → σ → Option ErrorKind × σ
  UpByOneCtx : String → List OptionsFunc → σ → Option ErrorKind × σ
  UpToCtx : String → Int → List OptionsFunc → σ → Option ErrorKind × σ
  Create : String → String → String → Option GoMap → List OptionsFunc → σ → Option ErrorKind × σ
  DownCtx : String → List OptionsFunc → σ → Option ErrorKind × σ
  DownToCtx : String → Int → List OptionsFunc → σ → Option ErrorKind × σ
  Fix : String → σ → Option ErrorKind × σ
  ResetCtx : String → List OptionsFunc → σ → Option ErrorKind × σ
  StatusCtx : String → List OptionsFunc → σ → Option ErrorKind × σ
  VersionCtx : String → List OptionsFunc → σ → Option ErrorKind × σ
  Quote : String → String

/-- The outside world together with the ghost log of the calls made so far. -/
structure World (σ : Type) where
  st : σ
  log : List Event

/-- The world after a collaborator call: its new state, and the call appended to the log. -/
def World.after {σ : Type} (w : World σ) (ev : Event) (s : σ) : World σ :=
  { st := s, log := w.log ++ [ev] }

/-- Modelled from the spec: `Migrations.Current` (section 4.2) returns the entry whose version
equals the target version, or fails with `NotFoundError` if no such version is present. -/
def Migrations.Current (ms : Migrations) (version : Int) : Except ErrorKind Migration :=
  match ms.find? (fun m => m.Version = version) with
  | some m => Except.ok m
  | none => Except.error ErrorKind.NotFoundError

/-! ## redo.go -/

/-- The loop `for _, f := range opts { f(option) }` over `option := &options{}`. -/
def applyOptions (opts : List OptionsFunc) : options :=
  opts.foldl (fun o f => f o) {}

/-- `redo.go` lines 36-48: the `Current` lookup, the flag assignment, Down, then Up. -/
def redoCurrent {σ : Type} (env : Env σ) (option : options) (migrations : Migrations)
    (currentVersion : Int) (w : World σ) : Option Error × World σ :=
  let w1 := w.after (Event.Current currentVersion) w.st
  match env.Current migrations currentVersion with
  | Except.error err => (some (Error.collab err), w1)
  | Except.ok found =>
    let current : Migration := { found with noVersioning := option.noVersioning }
    match env.MigrationDownCtx current w1.st with
    | (some err, s2) => (some (Error.collab err), w1.after (Event.MigrationDownCtx current) s2)
    | (none, s2) =>
      let w2 := w1.after (Event.MigrationDownCtx current) s2
      match env.MigrationUpCtx current w2.st with
      | (some err, s3) => (some (Error.collab err), w2.after (Event.MigrationUpCtx current) s3)
      | (none, s3) => (none, w2.after (Event.MigrationUpCtx current) s3)

/-- `RedoCtx` (`redo.go` lines 13-49). -/
def RedoCtx {σ : Type} (env : Env σ) (dir : String) (opts : List OptionsFunc) (w : World σ) :
    Option Error × World σ :=
  let option := applyOptions opts
  match env.CollectMigrations dir minVersion maxVersion w.st with
  | (Except.error err, s1) =>
    (some (Error.collab err), w.after (Event.CollectMigrations dir minVersion maxVersion) s1)
  | (Except.ok migrations, s1) =>
    let w1 := w.after (Event.CollectMigrations dir minVersion maxVersion) s1
    if option.noVersioning then
      if h : migrations.length = 0 then
        (none, w1)
      else
        let currentVersion :=
          (migrations.get ⟨migrations.length - 1, Nat.sub_lt (Nat.pos_of_ne_zero h) Nat.one_pos⟩).Version
        redoCurrent env option migrations currentVersion w1
    else
      match env.GetDBVersionCtx w1.st with
      | (Except.error err, s2) => (some (Error.collab err), w1.after Event.GetDBVersionCtx s2)
      | (Except.ok currentVersion, s2) =>
        redoCurrent env option migrations currentVersion (w1.after Event.GetDBVersionCtx s2)

/-! ## Go standard library: `strings.Index`, `strings.SplitN`, `strconv.ParseInt` -/

/-- `strings.Index(s, sep)` for a one-byte separator: the index of its first occurrence in
`s`, or -1 if there is none. -/
def Index : List Char → Char → Int
  | [], _ => -1
  | c :: cs, sep =>
    if c = sep then 0
    else
      let m := Index cs sep
      if m < 0 then -1 else m + 1

/-- The loop of `genSplit` for a one-byte separator: `k` is the number of rounds that are
left (`n - 1 - i`), `s` the rest of the string; a round cuts `s[:m]` off and goes on with
`s[m+len(sep):]`, and what remains at the end is the last piece. -/
def genSplitLoop (sep : Char) : Nat → List Char → List (List Char)
  | 0, s => [s]
  | k + 1, s =>
    let m := Index s sep
    if m < 0 then [s]
    else s.take m.toNat :: genSplitLoop sep k (s.drop (m.toNat + 1))

/-- `strings.SplitN(s, sep, n)` for a one-byte separator and `n ≥ 0`: at most `n` pieces, the
last one being the unsplit remainder (`n = 0` gives nil; `n` is capped at `len(s) + 1`). -/
def SplitN (s : String) (sep : Char) (n : Nat) : List String :=
  if n = 0 then []
  else
    let n1 := if n > s.data.length + 1 then s.data.length + 1 else n
    (genSplitLoop sep (n1 - 1) s.data).map String.mk

/-- The two error kinds of `strconv.NumError`. -/
inductive NumError where
  | ErrSyntax
  | ErrRange
  deriving DecidableEq, Repr

/-- The largest `uint64`. -/
def maxUint64 : Nat := 2 ^ 64 - 1

/-- `lower(c) = c | ('x' - 'X')` of package `strconv`, on the byte value. -/
def lower (c : Nat) : Nat := c ||| 0x20

/-- The digit value chosen by the `switch` in the loop of `ParseUint` for a base that is not
0: a decimal digit, a letter counted from 10, or nothing (the default branch). -/
def digitVal (c : Nat) : Option Nat :=
  if 48 ≤ c ∧ c ≤ 57 then some (c - 48)
  else if 97 ≤ lower c ∧ lower c ≤ 122 then some (lower c - 97 + 10)
  else none

/-- The loop of `strconv.ParseUint(s, 10, 64)` with `n` the value read so far; `cutoff` is
`maxUint64/10 + 1` and `maxVal` is `1<<64 - 1`. All arithmetic is on `uint64`. -/
def ParseUintLoop : List Char → Nat → Nat × Option NumError
  | [], n => (n, none)
  | c :: cs, n =>
    match digitVal c.toNat with
    | none => (0, some NumError.ErrSyntax)
    | some d =>
      if d ≥ 10 then (0, some NumError.ErrSyntax)
      else if n ≥ maxUint64 / 10 + 1 then (maxUint64, some NumError.ErrRange)
      else
        let n10 := (n * 10) % 2 ^ 64
        let n1 := (n10 + d) % 2 ^ 64
        if n1 < n10 ∨ n1 > maxUint64 then (maxUint64, some NumError.ErrRange)
        else ParseUintLoop cs n1

/-- `strconv.ParseUint(s, 10, 64)`: the value and the error. -/
def ParseUint (s : List Char) : Nat × Option NumError :=
  match s with
  | [] => (0, some NumError.ErrSyntax)
  | _ :: _ => ParseUintLoop s 0

/-- The conversion `int64(x)`: wrap into the signed 64-bit range. -/
def toInt64 (x : Int) : Int := (x + 2 ^ 63) % 2 ^ 64 - 2 ^ 63

/-- The sign that `ParseInt` picks off: whether it is a minus, and the rest of the string. -/
def pickSign : List Char → Bool × List Char
  | [] => (false, [])
  | c :: cs => if c = '+' then (false, cs) else if c = '-' then (true, cs) else (false, c :: cs)

/-- `strconv.ParseInt(s, 10, 64)`: the value and the error (`none` is `err == nil`). -/
def ParseInt (s : String) : Int × Option NumError :=
  match s.data with
  | [] => (0, some NumError.ErrSyntax)
  | c :: cs =>
    let neg := (pickSign (c :: cs)).1
    let r := ParseUint (pickSign (c :: cs)).2
    if r.2 = some NumError.ErrSyntax then (0, some NumError.ErrSyntax)
    else if neg = false ∧ r.1 ≥ 2 ^ 63 then (2 ^ 63 - 1, some NumError.ErrRange)
    else if neg = true ∧ r.1 > 2 ^ 63 then (-(2 ^ 63), some NumError.ErrRange)
    else
      let n := toInt64 r.1
      (if neg then toInt64 (-n) else n, none)

/-! ## goose.go -/

/-- The loop of `makeParams` over `pairs`, with the map built so far. -/
def makeParamsLoop : List String → GoMap → Option GoMap × Option Error
  | [], result => (some result, none)
  | pair :: rest, result =>
    match SplitN pair '=' 2 with
    | [k, v] => makeParamsLoop rest (result.set k v)
    | _ => (none, some Error.ErrInvalidArgument)

/-- `makeParams` (`goose.go` lines 142-161): the map (`none` is the nil map) and the error. -/
def makeParams (args : List String) : Option GoMap × Option Error :=
  if args.length < 3 then (none, none)
  else makeParamsLoop (args.drop 2) []

/-- A handler call `if err := H(...); err != nil { return err }` followed by `return nil`. -/
def call {σ : Type} (ev : Event) (f : σ → Option ErrorKind × σ) (w : World σ) :
    Option Error × World σ :=
  (liftErr (f w.st).1, w.after ev (f w.st).2)

/-- `run` (`goose.go` lines 62-140). `ctx` and `db` are part of the world. -/
def run {σ : Type} (env : Env σ) (command : String) (dir : String) (args : List String)
    (opts : List OptionsFunc) (w : World σ) : Option Error × World σ :=
  match command with
  | "up" => call (Event.UpCtx dir) (env.UpCtx dir opts) w
  | "up-by-one" => call (Event.UpByOneCtx dir) (env.UpByOneCtx dir opts) w
  | "up-to" =>
    match args with
    | [] =>
      (some (Error.errorf "up-to must be of form: goose [OPTIONS] DRIVER DBSTRING up-to VERSION"), w)
    | arg0 :: _ =>
      if (ParseInt arg0).2 ≠ none then
        (some (Error.errorf ("version must be a number (got '" ++ arg0 ++ "')")), w)
      else
        call (Event.UpToCtx dir (ParseInt arg0).1) (env.UpToCtx dir (ParseInt arg0).1 opts) w
  | "create" =>
    match args with
    | [] =>
      (some (Error.errorf
        "create must be of form: goose [OPTIONS] DRIVER DBSTRING create NAME [go|sql]"), w)
    | arg0 :: _ =>
      let migrationType := match args with
        | _ :: arg1 :: _ => arg1
        | _ => "go"
      match makeParams args with
      | (_, some err) => (some err, w)
      | (params, none) =>
        call (Event.Create dir arg0 migrationType params)
          (env.Create dir arg0 migrationType params opts) w
  | "down" => call (Event.DownCtx dir) (env.DownCtx dir opts) w
  | "down-to" =>
    match args with
    | [] =>
      (some (Error.errorf
        "down-to must be of form: goose [OPTIONS] DRIVER DBSTRING down-to VERSION"), w)
    | arg0 :: _ =>
      if (ParseInt arg0).2 ≠ none then
        (some (Error.errorf ("version must be a number (got '" ++ arg0 ++ "')")), w)
      else
        call (Event.DownToCtx dir (ParseInt arg0).1) (env.DownToCtx dir (ParseInt arg0).1 opts) w
  | "fix" => call (Event.Fix dir) (env.Fix dir) w
  | "redo" => RedoCtx env dir opts w
  | "reset" => call (Event.ResetCtx dir) (env.ResetCtx dir opts) w
  | "status" => call (Event.StatusCtx dir) (env.StatusCtx dir opts) w
  | "version" => call (Event.VersionCtx dir) (env.VersionCtx dir opts) w
  | _ => (some (Error.errorf (env.Quote command ++ ": no such command")), w)

/-! ## Sequential `create` -/

/-- Modelled from the spec: the TemplateContext handed to the renderer (section 3). -/
structure TemplateContext where
  Values : GoMap
  CamelName : String
  Version : String
  deriving DecidableEq, Repr

/-- Modelled from the spec: the target directory of `create`, as the artifacts it holds (file
name and content) in creation order. -/
abbrev Directory := List (String × String)

/-- The rendering `fmt.Sprintf("%05v", n)` that `create_test.go` expects, the "left-zero-padded
5-digit decimal string" of section 4.5: the decimal digits of `n`, filled with zeros on the
left up to five characters. -/
def pad5 (n : Nat) : String :=
  String.mk (List.replicate (5 - (Nat.toDigits 10 n).length) '0' ++ Nat.toDigits 10 n)

/-- Modelled from the spec: `Create` in sequential mode (section 4.5). `Create` itself is not
in `goose.go`. The next identifier is the count of existing artifacts plus one, rendered by
`pad5`; the template is expanded on the TemplateContext and a failure is a `TemplateError`;
one artifact named `<identifier>_<slugified-name>.<extension>` is written, unless that name
exists already (`CreateConflictError`). `camel` and `slug` are the two name conversions, which
the spec leaves open. -/
def Create (camel slug : String → String) (dir : Directory) (name migrationType : String)
    (params : GoMap) (tmpl : TemplateContext → Except ErrorKind String) :
    Except ErrorKind Directory :=
  let version := pad5 (dir.length + 1)
  match tmpl { Values := params, CamelName := camel name, Version := version } with
  | Except.error _ => Except.error ErrorKind.TemplateError
  | Except.ok content =>
    let filename := version ++ "_" ++ slug name ++ "." ++ migrationType
    if dir.any (fun f => f.1 = filename) then Except.error ErrorKind.CreateConflictError
    else Except.ok (dir ++ [(filename, content)])

/-- One `create` invocation: name, kind, parameters and template. -/
structure CreateRequest where
  name : String
  migrationType : String
  params : GoMap
  tmpl : TemplateContext → Except ErrorKind String

/-- Successive `create` invocations on one directory, stopping at the first failure. -/
def createAll (camel slug : String → String) : List CreateRequest → Directory →
    Except ErrorKind Directory
  | [], dir => Except.ok dir
  | r :: rest, dir =>
    match Create camel slug dir r.name r.migrationType r.params r.tmpl with
    | Except.error e => Except.error e
    | Except.ok dir1 => createAll camel slug rest dir1

/-- The number denoted by a string of decimal digits, read from the left. -/
def decimalValue (s : List Char) : Nat :=
  s.foldl (fun a c => 10 * a + (c.toNat - 48)) 0

/-! ## Vocabulary of the statements -/

/-- A decimal digit: a character from `0` (48) to `9` (57). -/
def isDecimalDigit (c : Char) : Prop := 48 ≤ c.toNat ∧ c.toNat ≤ 57

instance (c : Char) : Decidable (isDecimalDigit c) :=
  inferInstanceAs (Decidable (48 ≤ c.toNat ∧ c.toNat ≤ 57))

/-- The number that a file name starts with: the value of its leading digits. -/
def numericPrefix (name : String) : Nat :=
  decimalValue (name.data.takeWhile (fun c => decide (isDecimalDigit c)))

/-- The artifacts of a directory are numbered in sequence: the name of the artifact at
position `i` (from 0) is `pad5 (i + 1)`, an underscore, and some rest. -/
def sequentialNames (dir : Directory) : Prop :=
  ∀ (i : Nat) (h : i < dir.length),
    ∃ rest : List Char, (dir.get ⟨i, h⟩).1.data = (pad5 (i + 1)).data ++ '_' :: rest

/-- Modelled from the spec: the run option that sets `noVersioning` (section 6); the option
constructors are not in `goose.go` or `redo.go`. -/
def WithNoVersioning : OptionsFunc := fun o => { o with noVersioning := true }

/-- The versions that `Current` was called with, in order. -/
def currentCalls (log : List Event) : List Int :=
  log.filterMap (fun ev => match ev with
    | Event.Current v => some v
    | _ => none)

/-- The Up and Down actions of migrations in a log, in order. -/
def actions (log : List Event) : List Event :=
  log.filter (fun ev => match ev with
    | Event.MigrationDownCtx _ => true
    | Event.MigrationUpCtx _ => true
    | _ => false)

/-- The calls of the two version handlers `UpToCtx` and `DownToCtx` in a log, in order. -/
def versionHandlerCalls (log : List Event) : List Event :=
  log.filter (fun ev => match ev with
    | Event.UpToCtx _ _ => true
    | Event.DownToCtx _ _ => true
    | _ => false)

/-- The ledger read of `RedoCtx`, as the log shows it: nothing under no-versioning, one call
of `GetDBVersionCtx` otherwise. -/
def versionLog (option : options) : List Event :=
  if option.noVersioning then [] else [Event.GetDBVersionCtx]

/-- The step "determine the current version" of `RedoCtx` succeeds from world state `s1` with
version `v` and leaves world state `s2`: under no-versioning the Collection has a last entry
and `v` is its version, otherwise the ledger read returns `v`. -/
def versionStep {σ : Type} (env : Env σ) (option : options) (migrations : Migrations)
    (s1 : σ) (v : Int) (s2 : σ) : Prop :=
  (option.noVersioning = true ∧ s2 = s1 ∧
      ∃ last, migrations.getLast? = some last ∧ v = last.Version) ∨
    (option.noVersioning = false ∧ env.GetDBVersionCtx s1 = (Except.ok v, s2))

/-- The eleven command names of `run`. -/
def commandNames : List String :=
  ["up", "up-by-one", "up-to", "down", "down-to", "create", "redo", "reset", "status",
    "version", "fix"]

/-- The integer that a string denotes in decimal writing: an optional sign followed by at
least one digit, with any number of digits. -/
def denotes (s : String) (z : Int) : Prop :=
  ∃ ds : List Char, ds ≠ [] ∧ (∀ c ∈ ds, isDecimalDigit c) ∧
    ((s.data = ds ∧ z = decimalValue ds) ∨ (s.data = '+' :: ds ∧ z = decimalValue ds) ∨
      (s.data = '-' :: ds ∧ z = -(decimalValue ds : Int)))

/-- The string `s` parses as the base-10 signed 64-bit integer `z`: it denotes `z`, and `z`
lies in the `int64` range. -/
def parsesInt64 (s : String) (z : Int) : Prop :=
  denotes s z ∧ -(2 ^ 63) ≤ z ∧ z < 2 ^ 63

/-- The text of `pair` before its first `=`. -/
def keyOf (pair : String) : String := String.mk (pair.data.takeWhile (fun c => c ≠ '='))

/-- The text of `pair` after its first `=`. -/
def valueOf (pair : String) : String :=
  String.mk ((pair.data.dropWhile (fun c => c ≠ '=')).drop 1)

/-! ## A small world for the examples

Two migrations on disk, a ledger that lists the applied versions (newest first). -/

/-- The migration with version 1. -/
def V1 : Migration := { Version := 1, kind := Kind.DeclarativeScript, noVersioning := false }

/-- The migration with version 2. -/
def V2 : Migration := { Version := 2, kind := Kind.DeclarativeScript, noVersioning := false }

/-- The example world: the Collection on disk and the applied versions, newest first. -/
structure Demo where
  files : Migrations
  applied : List Int
  deriving DecidableEq, Repr

/-- Collaborators of the example world. The ledger is read by `GetDBVersionCtx` (0 when
nothing is applied), Down removes the version from the ledger and Up adds it, unless the
migration runs with no-versioning; the command handlers do nothing. -/
def demoEnv : Env Demo where
  CollectMigrations := fun _ _ _ s => (Except.ok s.files, s)
  GetDBVersionCtx := fun s => (Except.ok (s.applied.headD 0), s)
  Current := Migrations.Current
  MigrationDownCtx := fun m s =>
    (none, if m.noVersioning then s else { s with applied := s.applied.filter (fun v => v ≠ m.Version) })
  MigrationUpCtx := fun m s =>
    (none, if m.noVersioning then s else { s with applied := m.Version :: s.applied })
  UpCtx := fun _ _ s => (none, s)
  UpByOneCtx := fun _ _ s => (none, s)
  UpToCtx := fun _ _ _ s => (none, s)
  Create := fun _ _ _ _ _ s => (none, s)
  DownCtx := fun _ _ s => (none, s)
  DownToCtx := fun _ _ _ s => (none, s)
  Fix := fun _ s => (none, s)
  ResetCtx := fun _ _ s => (none, s)
  StatusCtx := fun _ _ s => (none, s)
  VersionCtx := fun _ _ s => (none, s)
  Quote := fun s => "\"" ++ s ++ "\""

/-- The example world with `[V1, V2]` on disk, both applied. -/
def demoWorld : World Demo := { st := { files := [V1, V2], applied := [2, 1] }, log := [] }

/-- The example world with an empty Collection and an empty ledger. -/
def emptyWorld : World Demo := { st := { files := [], applied := [] }, log := [] }

/-- The example collaborators with a failing Up action (`WriteError`). -/
def demoEnvUpFails : Env Demo :=
  { demoEnv with MigrationUpCtx := fun _ s => (some ErrorKind.WriteError, s) }

/-- The template of `TestCustomTemplate` in `create_test.go`. -/
def customTemplate : TemplateContext → Except ErrorKind String := fun c =>
  Except.ok ("\n" ++ (c.Values.get? "comment").getD "" ++ "\nName " ++ c.CamelName ++
    "\nVersion " ++ c.Version ++ "\n")

/-- A stand-in for the two name conversions in the examples: the name itself. -/
def sameName : String → String := fun s => s

/-- The four `create` invocations of `TestSequential`, with the template of
`TestCustomTemplate`. -/
def fourRequests : List CreateRequest :=
  ["create_table", "add_users", "add_indices", "update_users"].map (fun n =>
    { name := n, migrationType := "go", params := [("comment", "// hello world")],
      tmpl := customTemplate })

/-! ## Theorems about `RedoCtx` -/

/-- Once the Collection is read and the current version determined, `RedoCtx` is the
`Current` lookup followed by Down and Up, on the log that shows the steps so far. -/
theorem RedoCtx_eq_redoCurrent {σ : Type} (env : Env σ) (dir : String) (opts : List OptionsFunc)
    (w : World σ) (migrations : Migrations) (s1 s2 : σ) (v : Int)
    (hcollect : env.CollectMigrations dir minVersion maxVersion w.st = (Except.ok migrations, s1))
    (hversion : versionStep env (applyOptions opts) migrations s1 v s2) :
    RedoCtx env dir opts w =
      redoCurrent env (applyOptions opts) migrations v
        { st := s2,
          log := w.log ++ [Event.CollectMigrations dir minVersion maxVersion] ++
            versionLog (applyOptions opts) } := by
  rcases hversion with ⟨hnv, hs, last, hlast, hv⟩ | ⟨hnv, hget⟩
  · have hne : migrations.length ≠ 0 := by
      intro h0
      rw [List.length_eq_zero] at h0
      simp [h0] at hlast
    have hl : (migrations.get ⟨migrations.length - 1,
        Nat.sub_lt (Nat.pos_of_ne_zero hne) Nat.one_pos⟩) = last := by
      rw [List.getLast?_eq_getElem?] at hlast
      have := List.getElem?_eq_some_iff.mp hlast
      obtain ⟨_, h2⟩ := this
      simpa using h2
    simp only [RedoCtx, hcollect, hnv, if_true, dif_neg hne, hl, versionLog, World.after, hs, hv,
      List.append_nil]
  · simp [RedoCtx, hcollect, hnv, hget, versionLog, World.after]

/-- C1. When collecting the migrations, determining the current version, the `Current`
lookup, Down and Up all succeed, `RedoCtx` returns no error and its calls are, in this order:
the collection, the ledger read (only without no-versioning), `Current`, then Down and Up of
the entry that `Current` returned, with its no-versioning flag set to the run option; these
two are the only actions, and the world is the one that Up left. -/
theorem RedoCtx_down_then_up {σ : Type} (env : Env σ) (dir : String) (opts : List OptionsFunc)
    (w : World σ) (migrations : Migrations) (s1 s2 s3 s4 : σ) (v : Int) (m : Migration)
    (hcollect : env.CollectMigrations dir minVersion maxVersion w.st = (Except.ok migrations, s1))
    (hversion : versionStep env (applyOptions opts) migrations s1 v s2)
    (hcurrent : env.Current migrations v = Except.ok m)
    (hdown : env.MigrationDownCtx { m with noVersioning := (applyOptions opts).noVersioning } s2
      = (none, s3))
    (hup : env.MigrationUpCtx { m with noVersioning := (applyOptions opts).noVersioning } s3
      = (none, s4)) :
    (RedoCtx env dir opts w).1 = none ∧
    (RedoCtx env dir opts w).2.st = s4 ∧
    (RedoCtx env dir opts w).2.log =
      w.log ++ [Event.CollectMigrations dir minVersion maxVersion] ++
        versionLog (applyOptions opts) ++
        [Event.Current v,
         Event.MigrationDownCtx { m with noVersioning := (applyOptions opts).noVersioning },
         Event.MigrationUpCtx { m with noVersioning := (applyOptions opts).noVersioning }] ∧
    actions ((RedoCtx env dir opts w).2.log.drop w.log.length) =
      [Event.MigrationDownCtx { m with noVersioning := (applyOptions opts).noVersioning },
       Event.MigrationUpCtx { m with noVersioning := (applyOptions opts).noVersioning }] := by
  rw [RedoCtx_eq_redoCurrent env dir opts w migrations s1 s2 v hcollect hversion]
  simp only [redoCurrent, hcurrent, World.after, hdown, hup, List.append_assoc,
    List.drop_left, true_and]
  refine ⟨by simp, ?_⟩
  unfold versionLog
  split <;> simp [actions]

/-- C1, the redo scenario: with `[V1, V2]` both applied, redo runs Down(V2) and then Up(V2),
returns no error and leaves the ledger as it was; V1 is not touched. -/
theorem RedoCtx_down_then_up_witness :
    (RedoCtx demoEnv "migrations" [] demoWorld).1 = none ∧
    (RedoCtx demoEnv "migrations" [] demoWorld).2.st = { files := [V1, V2], applied := [2, 1] } ∧
    (RedoCtx demoEnv "migrations" [] demoWorld).2.log =
      [] ++ [Event.CollectMigrations "migrations" minVersion maxVersion] ++
        versionLog (applyOptions []) ++
        [Event.Current 2,
         Event.MigrationDownCtx { V2 with noVersioning := (applyOptions []).noVersioning },
         Event.MigrationUpCtx { V2 with noVersioning := (applyOptions []).noVersioning }] ∧
    actions ((RedoCtx demoEnv "migrations" [] demoWorld).2.log.drop 0) =
      [Event.MigrationDownCtx { V2 with noVersioning := (applyOptions []).noVersioning },
       Event.MigrationUpCtx { V2 with noVersioning := (applyOptions []).noVersioning }] :=
  RedoCtx_down_then_up demoEnv "migrations" [] demoWorld [V1, V2]
    { files := [V1, V2], applied := [2, 1] } { files := [V1, V2], applied := [2, 1] }
    { files := [V1, V2], applied := [1] } { files := [V1, V2], applied := [2, 1] } 2 V2
    rfl (Or.inr ⟨rfl, rfl⟩) rfl rfl rfl

/-- C2, as stated, fails: with an empty Collection under no-versioning `RedoCtx` returns no
error at all (`redo.go` lines 25-27), and `Current` is never called. -/
theorem RedoCtx_empty_noVersioning_returns_nil :
    emptyWorld.st.files = [] ∧ (applyOptions [WithNoVersioning]).noVersioning = true ∧
    (RedoCtx demoEnv "migrations" [WithNoVersioning] emptyWorld).1 = none ∧
    currentCalls (RedoCtx demoEnv "migrations" [WithNoVersioning] emptyWorld).2.log = [] := by
  decide

/-- C2, amended. After the Collection is read: whenever the current version is determined
and `Current` fails for it, `RedoCtx` returns the error of `Current` (the `NotFoundError`,
when `Current` is the lookup of section 4.2), the world is left as the version step left it,
and no Down or Up action is run. With an empty Collection under no-versioning `Current` is
not called: `RedoCtx` returns no error, and also runs no action. -/
theorem RedoCtx_current_fails {σ : Type} (env : Env σ) (dir : String) (opts : List OptionsFunc)
    (w : World σ) (migrations : Migrations) (s1 : σ)
    (hcollect : env.CollectMigrations dir minVersion maxVersion w.st = (Except.ok migrations, s1)) :
    (∀ (v : Int) (s2 : σ) (e : ErrorKind),
      versionStep env (applyOptions opts) migrations s1 v s2 →
      env.Current migrations v = Except.error e →
        (RedoCtx env dir opts w).1 = some (Error.collab e) ∧
        (RedoCtx env dir opts w).2.st = s2 ∧
        actions ((RedoCtx env dir opts w).2.log.drop w.log.length) = [] ∧
        (env.Current = Migrations.Current → e = ErrorKind.NotFoundError)) ∧
    ((applyOptions opts).noVersioning = true → migrations = [] →
        RedoCtx env dir opts w =
          (none, { st := s1,
                   log := w.log ++ [Event.CollectMigrations dir minVersion maxVersion] })) := by
  constructor
  · intro v s2 e hversion hcurrent
    rw [RedoCtx_eq_redoCurrent env dir opts w migrations s1 s2 v hcollect hversion]
    simp only [redoCurrent, hcurrent, World.after, List.append_assoc, List.drop_left, true_and]
    constructor
    · unfold versionLog
      split <;> simp [actions]
    · intro hc
      rw [hc] at hcurrent
      unfold Migrations.Current at hcurrent
      split at hcurrent
      · cases hcurrent
      · injection hcurrent with h
        exact h.symm
  · intro hnv hnil
    subst hnil
    simp [RedoCtx, hcollect, hnv, World.after]

/-- C2, amended, on the example world: nothing on disk and an empty ledger; the ledger read
gives 0, `Current` finds no such entry, and redo fails with `NotFoundError`. -/
theorem RedoCtx_current_fails_witness :
    (RedoCtx demoEnv "migrations" [] emptyWorld).1 = some (Error.collab ErrorKind.NotFoundError) ∧
    (RedoCtx demoEnv "migrations" [] emptyWorld).2.st = { files := [], applied := [] } ∧
    actions ((RedoCtx demoEnv "migrations" [] emptyWorld).2.log.drop emptyWorld.log.length) = [] ∧
    (demoEnv.Current = Migrations.Current → ErrorKind.NotFoundError = ErrorKind.NotFoundError) :=
  (RedoCtx_current_fails demoEnv "migrations" [] emptyWorld [] { files := [], applied := [] }
    rfl).1 0 { files := [], applied := [] } ErrorKind.NotFoundError (Or.inr ⟨rfl, rfl⟩) rfl

/-- The log of the lookup-Down-Up part of `RedoCtx`: one call of `Current` with the given
version, followed by actions only. -/
theorem redoCurrent_log {σ : Type} (env : Env σ) (option : options) (migrations : Migrations)
    (v : Int) (w : World σ) :
    ∃ rest, (redoCurrent env option migrations v w).2.log = w.log ++ Event.Current v :: rest ∧
      actions rest = rest := by
  rcases hc : env.Current migrations v with e | found
  · exact ⟨[], by simp [redoCurrent, hc, World.after], rfl⟩
  · rcases hd : env.MigrationDownCtx { found with noVersioning := option.noVersioning } w.st
      with ⟨_ | e, s2⟩
    · rcases hu : env.MigrationUpCtx { found with noVersioning := option.noVersioning } s2
        with ⟨_ | e, s3⟩
      · exact ⟨[Event.MigrationDownCtx { found with noVersioning := option.noVersioning },
          Event.MigrationUpCtx { found with noVersioning := option.noVersioning }],
          by simp [redoCurrent, hc, hd, hu, World.after], rfl⟩
      · exact ⟨[Event.MigrationDownCtx { found with noVersioning := option.noVersioning },
          Event.MigrationUpCtx { found with noVersioning := option.noVersioning }],
          by simp [redoCurrent, hc, hd, hu, World.after], rfl⟩
    · exact ⟨[Event.MigrationDownCtx { found with noVersioning := option.noVersioning }],
        by simp [redoCurrent, hc, hd, World.after], rfl⟩

/-- A list of actions holds no call of `Current` and no ledger read. -/
theorem actions_fixed {rest : List Event} (h : actions rest = rest) :
    currentCalls rest = [] ∧ Event.GetDBVersionCtx ∉ rest := by
  constructor
  · rw [← h]
    unfold currentCalls actions
    rw [List.filterMap_eq_nil_iff]
    intro ev hev
    rw [List.mem_filter] at hev
    cases ev <;> simp_all
  · intro hmem
    rw [← h] at hmem
    unfold actions at hmem
    rw [List.mem_filter] at hmem
    simp at hmem

/-- C3. After the Collection is read, the version passed to `Current` is chosen by mode.
Under no-versioning with a non-empty Collection, `Current` is called once, with the version
of the last entry, and the ledger is not read. Without no-versioning, whenever the ledger
read returns a version, `Current` is called once, with exactly that version, whatever the
Collection contains. -/
theorem RedoCtx_version_by_mode {σ : Type} (env : Env σ) (dir : String)
    (opts : List OptionsFunc) (w : World σ) (migrations : Migrations) (s1 : σ)
    (hcollect : env.CollectMigrations dir minVersion maxVersion w.st = (Except.ok migrations, s1)) :
    ((applyOptions opts).noVersioning = true → ∀ hne : migrations ≠ [],
        currentCalls ((RedoCtx env dir opts w).2.log.drop w.log.length) =
          [(migrations.getLast hne).Version] ∧
        Event.GetDBVersionCtx ∉ (RedoCtx env dir opts w).2.log.drop w.log.length) ∧
    ((applyOptions opts).noVersioning = false → ∀ (v : Int) (s2 : σ),
        env.GetDBVersionCtx s1 = (Except.ok v, s2) →
        currentCalls ((RedoCtx env dir opts w).2.log.drop w.log.length) = [v] ∧
        ((RedoCtx env dir opts w).2.log.drop w.log.length).take 2 =
          [Event.CollectMigrations dir minVersion maxVersion, Event.GetDBVersionCtx]) := by
  constructor
  · intro hnv hne
    have hversion : versionStep env (applyOptions opts) migrations s1
        (migrations.getLast hne).Version s1 :=
      Or.inl ⟨hnv, rfl, _, List.getLast?_eq_getLast _ hne, rfl⟩
    rw [RedoCtx_eq_redoCurrent env dir opts w migrations s1 s1 _ hcollect hversion]
    obtain ⟨rest, hlog, hrest⟩ := redoCurrent_log env (applyOptions opts) migrations
      (migrations.getLast hne).Version
      { st := s1, log := w.log ++ [Event.CollectMigrations dir minVersion maxVersion] ++
        versionLog (applyOptions opts) }
    obtain ⟨h1, h2⟩ := actions_fixed hrest
    rw [hlog]
    simp only [versionLog, hnv, if_true, List.append_nil, List.append_assoc, List.drop_left]
    constructor
    · simp [currentCalls] at h1 ⊢
      exact h1
    · simp [h2]
  · intro hnv v s2 hget
    have hversion : versionStep env (applyOptions opts) migrations s1 v s2 :=
      Or.inr ⟨hnv, hget⟩
    rw [RedoCtx_eq_redoCurrent env dir opts w migrations s1 s2 _ hcollect hversion]
    obtain ⟨rest, hlog, hrest⟩ := redoCurrent_log env (applyOptions opts) migrations v
      { st := s2, log := w.log ++ [Event.CollectMigrations dir minVersion maxVersion] ++
        versionLog (applyOptions opts) }
    obtain ⟨h1, _⟩ := actions_fixed hrest
    rw [hlog]
    simp only [versionLog, hnv, List.append_assoc, List.drop_left]
    simp [currentCalls] at h1 ⊢
    exact h1

/-- C3 on the example world, under no-versioning: the ledger lists only version 1, the last
entry on disk is V2, and `Current` is called with 2 without any ledger read. -/
theorem RedoCtx_version_by_mode_witness :
    currentCalls ((RedoCtx demoEnv "migrations" [WithNoVersioning]
        { st := { files := [V1, V2], applied := [1] }, log := [] }).2.log.drop 0) = [2] ∧
    Event.GetDBVersionCtx ∉ (RedoCtx demoEnv "migrations" [WithNoVersioning]
        { st := { files := [V1, V2], applied := [1] }, log := [] }).2.log.drop 0 :=
  (RedoCtx_version_by_mode demoEnv "migrations" [WithNoVersioning]
    { st := { files := [V1, V2], applied := [1] }, log := [] } [V1, V2]
    { files := [V1, V2], applied := [1] } rfl).1 rfl (by decide)

/-- C4. `RedoCtx` is fail-fast. The error of the first failing step is returned as it is,
the world is the one that step left, and the log ends with that step: nothing is called
after a failed collection, a failed ledger read, a failed `Current`, or a failed Down (Up is
not attempted); after a failed Up that follows a successful Down the error of Up is
returned and Up is the last call, so nothing undoes the Down. -/
theorem RedoCtx_fail_fast {σ : Type} (env : Env σ) (dir : String) (opts : List OptionsFunc)
    (w : World σ) :
    (∀ (e : ErrorKind) (s1 : σ),
      env.CollectMigrations dir minVersion maxVersion w.st = (Except.error e, s1) →
      RedoCtx env dir opts w =
        (some (Error.collab e),
          { st := s1, log := w.log ++ [Event.CollectMigrations dir minVersion maxVersion] })) ∧
    (∀ (migrations : Migrations) (s1 s2 : σ) (e : ErrorKind),
      env.CollectMigrations dir minVersion maxVersion w.st = (Except.ok migrations, s1) →
      (applyOptions opts).noVersioning = false →
      env.GetDBVersionCtx s1 = (Except.error e, s2) →
      RedoCtx env dir opts w =
        (some (Error.collab e),
          { st := s2,
            log := w.log ++ [Event.CollectMigrations dir minVersion maxVersion,
              Event.GetDBVersionCtx] })) ∧
    (∀ (migrations : Migrations) (s1 s2 : σ) (v : Int) (e : ErrorKind),
      env.CollectMigrations dir minVersion maxVersion w.st = (Except.ok migrations, s1) →
      versionStep env (applyOptions opts) migrations s1 v s2 →
      env.Current migrations v = Except.error e →
      RedoCtx env dir opts w =
        (some (Error.collab e),
          { st := s2,
            log := w.log ++ [Event.CollectMigrations dir minVersion maxVersion] ++
              versionLog (applyOptions opts) ++ [Event.Current v] })) ∧
    (∀ (migrations : Migrations) (s1 s2 s3 : σ) (v : Int) (m : Migration) (e : ErrorKind),
      env.CollectMigrations dir minVersion maxVersion w.st = (Except.ok migrations, s1) →
      versionStep env (applyOptions opts) migrations s1 v s2 →
      env.Current migrations v = Except.ok m →
      env.MigrationDownCtx { m with noVersioning := (applyOptions opts).noVersioning } s2
        = (some e, s3) →
      RedoCtx env dir opts w =
        (some (Error.collab e),
          { st := s3,
            log := w.log ++ [Event.CollectMigrations dir minVersion maxVersion] ++
              versionLog (applyOptions opts) ++
              [Event.Current v,
               Event.MigrationDownCtx
                 { m with noVersioning := (applyOptions opts).noVersioning }] })) ∧
    (∀ (migrations : Migrations) (s1 s2 s3 s4 : σ) (v : Int) (m : Migration) (e : ErrorKind),
      env.CollectMigrations dir minVersion maxVersion w.st = (Except.ok migrations, s1) →
      versionStep env (applyOptions opts) migrations s1 v s2 →
      env.Current migrations v = Except.ok m →
      env.MigrationDownCtx { m with noVersioning := (applyOptions opts).noVersioning } s2
        = (none, s3) →
      env.MigrationUpCtx { m with noVersioning := (applyOptions opts).noVersioning } s3
        = (some e, s4) →
      RedoCtx env dir opts w =
        (some (Error.collab e),
          { st := s4,
            log := w.log ++ [Event.CollectMigrations dir minVersion maxVersion] ++
              versionLog (applyOptions opts) ++
              [Event.Current v,
               Event.MigrationDownCtx
                 { m with noVersioning := (applyOptions opts).noVersioning },
               Event.MigrationUpCtx
                 { m with noVersioning := (applyOptions opts).noVersioning }] })) := by
  refine ⟨?_, ?_, ?_, ?_, ?_⟩
  · intro e s1 hcollect
    simp [RedoCtx, hcollect, World.after]
  · intro migrations s1 s2 e hcollect hnv hget
    simp [RedoCtx, hcollect, hnv, hget, World.after]
  · intro migrations s1 s2 v e hcollect hversion hcurrent
    rw [RedoCtx_eq_redoCurrent env dir opts w migrations s1 s2 v hcollect hversion]
    simp [redoCurrent, hcurrent, World.after]
  · intro migrations s1 s2 s3 v m e hcollect hversion hcurrent hdown
    rw [RedoCtx_eq_redoCurrent env dir opts w migrations s1 s2 v hcollect hversion]
    simp [redoCurrent, hcurrent, hdown, World.after]
  · intro migrations s1 s2 s3 s4 v m e hcollect hversion hcurrent hdown hup
    rw [RedoCtx_eq_redoCurrent env dir opts w migrations s1 s2 v hcollect hversion]
    simp [redoCurrent, hcurrent, hdown, hup, World.after]

/-- C4 on the example world with a failing Up: Down(V2) succeeds and takes version 2 off the
ledger, Up(V2) fails, its error is returned and the ledger stays without version 2. -/
theorem RedoCtx_fail_fast_witness :
    RedoCtx demoEnvUpFails "migrations" [] demoWorld =
      (some (Error.collab ErrorKind.WriteError),
        { st := { files := [V1, V2], applied := [1] },
          log := [] ++ [Event.CollectMigrations "migrations" minVersion maxVersion] ++
            versionLog (applyOptions []) ++
            [Event.Current 2,
             Event.MigrationDownCtx { V2 with noVersioning := (applyOptions []).noVersioning },
             Event.MigrationUpCtx { V2 with noVersioning := (applyOptions []).noVersioning }] }) :=
  (RedoCtx_fail_fast demoEnvUpFails "migrations" [] demoWorld).2.2.2.2 [V1, V2]
    { files := [V1, V2], applied := [2, 1] } { files := [V1, V2], applied := [2, 1] }
    { files := [V1, V2], applied := [1] } { files := [V1, V2], applied := [1] } 2 V2
    ErrorKind.WriteError rfl (Or.inr ⟨rfl, rfl⟩) rfl rfl rfl

/-! ## Theorems about `makeParams` -/

/-- `Index` is negative exactly when the separator does not occur. -/
theorem Index_neg_iff (s : List Char) (sep : Char) : Index s sep < 0 ↔ sep ∉ s := by
  induction s with
  | nil => simp [Index]
  | cons c cs ih =>
    unfold Index
    by_cases h : c = sep
    · simp [h]
    · have h2 : ¬ sep = c := fun h3 => h h3.symm
      simp only [h, if_false, List.mem_cons, h2, false_or]
      rw [← ih]
      split <;> omega

/-- `Index` is never below -1. -/
theorem Index_ge (s : List Char) (sep : Char) : -1 ≤ Index s sep := by
  induction s with
  | nil => simp [Index]
  | cons c cs ih =>
    unfold Index
    by_cases h : c = sep
    · simp [h]
    · simp only [h, if_false]
      split <;> omega

/-- Cutting at `Index`: what stands before the first separator and what stands after it. -/
theorem Index_cut (s : List Char) (sep : Char) (h : sep ∈ s) :
    s.take (Index s sep).toNat = s.takeWhile (fun c => c ≠ sep) ∧
    s.drop ((Index s sep).toNat + 1) = (s.dropWhile (fun c => c ≠ sep)).drop 1 := by
  induction s with
  | nil => simp at h
  | cons c cs ih =>
    unfold Index
    by_cases hc : c = sep
    · simp [hc]
    · have h2 : ¬ sep = c := fun h3 => hc h3.symm
      have hmem : sep ∈ cs := by simpa [h2] using h
      have hnn : ¬ Index cs sep < 0 := by rw [Index_neg_iff]; simpa using hmem
      obtain ⟨ih1, ih2⟩ := ih hmem
      have hnat : (Index cs sep + 1).toNat = (Index cs sep).toNat + 1 := by omega
      simp only [hc, if_false, hnn, hnat, List.take_succ_cons, List.drop_succ_cons]
      simp [hc, ih1, ih2]

/-- `SplitN(pair, "=", 2)` gives the two sides of the first `=`, or the string itself when
there is none. -/
theorem SplitN_two (pair : String) :
    SplitN pair '=' 2 = if '=' ∈ pair.data then [keyOf pair, valueOf pair] else [pair] := by
  unfold SplitN
  rw [if_neg (by decide : ¬ (2 = 0))]
  by_cases hmem : '=' ∈ pair.data
  · have hlen : ¬ (2 > pair.data.length + 1) := by
      have : 0 < pair.data.length := List.length_pos_of_mem hmem
      omega
    have hnn : ¬ Index pair.data '=' < 0 := by rw [Index_neg_iff]; simpa using hmem
    obtain ⟨h1, h2⟩ := Index_cut pair.data '=' hmem
    simp only [if_neg hlen, if_pos hmem, genSplitLoop, hnn, if_false, h1, h2, List.map, keyOf,
      valueOf]
  · have hneg : Index pair.data '=' < 0 := by rw [Index_neg_iff]; exact hmem
    by_cases hlen : 2 > pair.data.length + 1
    · simp only [if_pos hlen, if_neg hmem]
      have h0 : pair.data.length + 1 - 1 = 0 := by omega
      rw [h0]
      simp only [genSplitLoop, List.map]
    · simp only [if_neg hlen, if_neg hmem, genSplitLoop, hneg, if_true, List.map]

/-- Reading a map after an assignment. -/
theorem GoMap.get?_set (m : GoMap) (k v k1 : String) :
    (m.set k v).get? k1 = if k = k1 then some v else m.get? k1 := by
  unfold GoMap.set GoMap.get?
  by_cases h : k = k1
  · simp [h]
  · simp only [h, if_false, List.find?_cons]
    simp only [decide_False, List.find?_filter]
    congr 2
    funext p
    by_cases hp : p.1 = k1
    · have : ¬ k1 = k := fun h3 => h h3.symm
      simp [hp, this]
    · simp [hp]

/-- An assignment keeps the keys of a map distinct. -/
theorem GoMap.set_nodup (m : GoMap) (k v : String) (h : (m.map Prod.fst).Nodup) :
    ((m.set k v).map Prod.fst).Nodup := by
  unfold GoMap.set
  simp only [List.map_cons, List.nodup_cons, List.mem_map, List.mem_filter]
  constructor
  · rintro ⟨p, ⟨_, hp⟩, hpk⟩
    simp [hpk] at hp
  · exact (h.sublist ((List.filter_sublist _).map Prod.fst))

/-- The loop of `makeParams` fails exactly when some pair has no `=`, and then returns the
nil map with `ErrInvalidArgument`. -/
theorem makeParamsLoop_error (pairs : List String) (result : GoMap) :
    (∃ p ∈ pairs, '=' ∉ p.data) →
      makeParamsLoop pairs result = (none, some Error.ErrInvalidArgument) := by
  induction pairs generalizing result with
  | nil => simp
  | cons p rest ih =>
    intro h
    unfold makeParamsLoop
    rw [SplitN_two]
    by_cases hp : '=' ∈ p.data
    · simp only [hp, if_true]
      apply ih
      obtain ⟨q, hq, hqe⟩ := h
      rcases List.mem_cons.mp hq with rfl | hq
      · exact absurd hp hqe
      · exact ⟨q, hq, hqe⟩
    · simp [hp]

/-- The loop of `makeParams` on well-formed pairs: no error, and the map holds for each key
the value of the last pair with that key, or what it held before. -/
theorem makeParamsLoop_ok (pairs : List String) (result : GoMap)
    (hall : ∀ p ∈ pairs, '=' ∈ p.data) (hnd : (result.map Prod.fst).Nodup) :
    ∃ m : GoMap, makeParamsLoop pairs result = (some m, none) ∧ (m.map Prod.fst).Nodup ∧
      ∀ k, m.get? k =
        match pairs.reverse.find? (fun p => keyOf p = k) with
        | some p => some (valueOf p)
        | none => result.get? k := by
  induction pairs generalizing result with
  | nil => exact ⟨result, by simp [makeParamsLoop], hnd, by simp⟩
  | cons p rest ih =>
    have hp : '=' ∈ p.data := hall p (List.mem_cons_self _ _)
    obtain ⟨m, hm, hmnd, hget⟩ := ih (result.set (keyOf p) (valueOf p))
      (fun q hq => hall q (List.mem_cons_of_mem _ hq)) (GoMap.set_nodup _ _ _ hnd)
    refine ⟨m, ?_, hmnd, ?_⟩
    · unfold makeParamsLoop
      rw [SplitN_two]
      simp only [hp, if_true]
      exact hm
    · intro k
      rw [hget k, List.reverse_cons, List.find?_append]
      cases hf : rest.reverse.find? (fun p => keyOf p = k) with
      | some q => simp
      | none =>
        simp only [Option.none_or, GoMap.get?_set, List.find?_cons, List.find?_nil]
        by_cases hk : keyOf p = k
        · simp [hk]
        · simp [hk]

/-- The two outcomes of `makeParams`: the nil map with `ErrInvalidArgument` when there are at
least three arguments and one from the third on has no `=`, and no error otherwise. -/
theorem makeParams_outcome (args : List String) :
    ((3 ≤ args.length ∧ ∃ p ∈ args.drop 2, '=' ∉ p.data) →
      makeParams args = (none, some Error.ErrInvalidArgument)) ∧
    (¬ (3 ≤ args.length ∧ ∃ p ∈ args.drop 2, '=' ∉ p.data) → (makeParams args).2 = none) := by
  by_cases hlen : args.length < 3
  · have h3 : ¬ 3 ≤ args.length := by omega
    simp [makeParams, hlen, h3]
  · have h3 : 3 ≤ args.length := by omega
    by_cases hbad : ∃ p ∈ args.drop 2, '=' ∉ p.data
    · have := makeParamsLoop_error (args.drop 2) [] hbad
      simp only [makeParams, hlen, if_false, this, h3, true_and, hbad]
      simp
    · have hall : ∀ p ∈ args.drop 2, '=' ∈ p.data := by
        intro p hp
        by_contra hne
        exact hbad ⟨p, hp, hne⟩
      obtain ⟨m, hm, _, _⟩ := makeParamsLoop_ok (args.drop 2) [] hall (by simp)
      simp only [makeParams, hlen, if_false, hm, h3, true_and, hbad]
      simp

/-- C5. `makeParams` fails exactly when the argument list has at least three elements and
some element from the third on contains no `=`; the failure is `ErrInvalidArgument` with the
nil map, and in every other case no error is returned. With fewer than three arguments the
result is the nil map without error, whatever the arguments are. -/
theorem makeParams_error_iff (args : List String) :
    (makeParams args = (none, some Error.ErrInvalidArgument) ↔
      3 ≤ args.length ∧ ∃ p ∈ args.drop 2, '=' ∉ p.data) ∧
    ((makeParams args).2 = none ↔ ¬ (3 ≤ args.length ∧ ∃ p ∈ args.drop 2, '=' ∉ p.data)) ∧
    (args.length < 3 → makeParams args = (none, none)) := by
  obtain ⟨hbad, hgood⟩ := makeParams_outcome args
  refine ⟨⟨?_, hbad⟩, ⟨?_, hgood⟩, ?_⟩
  · intro h
    by_contra hno
    have := hgood hno
    rw [h] at this
    cases this
  · intro h hb
    rw [hbad hb] at h
    cases h
  · intro hlen
    simp [makeParams, hlen]

/-- C5 on an example: the fourth argument has no `=`. -/
theorem makeParams_error_iff_witness :
    makeParams ["name", "go", "a=1", "b"] = (none, some Error.ErrInvalidArgument) :=
  (makeParams_error_iff ["name", "go", "a=1", "b"]).1.mpr
    ⟨by decide, "b", by decide, by decide⟩

/-- C10. On success with at least three arguments `makeParams` returns a map (not nil) with
one entry per key, whose keys are exactly the texts before the first `=` of the elements
from the third on, each mapped to the text after the first `=` of the last element with that
key; the first two arguments contribute nothing. With fewer than three arguments the map is
nil. -/
theorem makeParams_result (args : List String) :
    (3 ≤ args.length → (∀ p ∈ args.drop 2, '=' ∈ p.data) →
      ∃ m : GoMap, makeParams args = (some m, none) ∧ (m.map Prod.fst).Nodup ∧
        (∀ k, m.get? k =
          ((args.drop 2).reverse.find? (fun p => keyOf p = k)).map valueOf) ∧
        (∀ k, k ∈ m.map Prod.fst ↔ ∃ p ∈ args.drop 2, keyOf p = k)) ∧
    (args.length < 3 → (makeParams args).1 = none) := by
  constructor
  · intro h3 hall
    have hlen : ¬ args.length < 3 := by omega
    obtain ⟨m, hm, hnd, hget⟩ := makeParamsLoop_ok (args.drop 2) [] hall (by simp)
    have hget2 : ∀ k, m.get? k =
        ((args.drop 2).reverse.find? (fun p => keyOf p = k)).map valueOf := by
      intro k
      rw [hget k]
      cases (args.drop 2).reverse.find? (fun p => keyOf p = k) <;> simp [GoMap.get?]
    refine ⟨m, by simp [makeParams, hlen, hm], hnd, hget2, ?_⟩
    intro k
    have hkey : k ∈ m.map Prod.fst ↔ (m.get? k).isSome = true := by
      unfold GoMap.get?
      simp [List.find?_isSome]
    rw [hkey, hget2 k]
    simp [List.find?_isSome]
  · intro hlen
    simp [makeParams, hlen]

/-- C10 on an example: a value that contains `=`, an empty value, an empty key, a repeated
key; the name and the kind token are not entries. -/
theorem makeParams_result_witness :
    ∃ m : GoMap, makeParams ["name", "go", "a=1", "b=x=y", "a=", "=z"] = (some m, none) ∧
      (m.map Prod.fst).Nodup ∧
      (∀ k, m.get? k =
        ((["name", "go", "a=1", "b=x=y", "a=", "=z"].drop 2).reverse.find?
          (fun p => keyOf p = k)).map valueOf) ∧
      (∀ k, k ∈ m.map Prod.fst ↔
        ∃ p ∈ ["name", "go", "a=1", "b=x=y", "a=", "=z"].drop 2, keyOf p = k) :=
  (makeParams_result ["name", "go", "a=1", "b=x=y", "a=", "=z"]).1 (by decide) (by decide)

/-! ## Theorems about `strconv.ParseInt` -/

/-- The value of the `uint64` bound. -/
theorem maxUint64_eq : maxUint64 = 18446744073709551615 := by
  norm_num [maxUint64]

/-- A decimal digit has its digit value. -/
theorem digitVal_of_digit (c : Char) (h : isDecimalDigit c) :
    digitVal c.toNat = some (c.toNat - 48) := by
  unfold isDecimalDigit at h
  simp [digitVal, h.1, h.2]

/-- A character that is given a digit value below 10 is a decimal digit. -/
theorem digit_of_digitVal (c : Char) (d : Nat) (h : digitVal c.toNat = some d) (hd : ¬ d ≥ 10) :
    isDecimalDigit c := by
  unfold digitVal at h
  unfold isDecimalDigit
  split at h
  · assumption
  · split at h
    · injection h with h
      omega
    · cases h

/-- Reading more digits never lowers the value. -/
theorem foldl_digits_ge (cs : List Char) (a : Nat) :
    a ≤ cs.foldl (fun a c => 10 * a + (c.toNat - 48)) a := by
  induction cs generalizing a with
  | nil => simp
  | cons c cs ih =>
    simp only [List.foldl_cons]
    have := ih (10 * a + (c.toNat - 48))
    omega

/-- The loop of `ParseUint` on digits: the value read, or the range error with `maxUint64`
as soon as the value leaves the `uint64` range. -/
theorem ParseUintLoop_digits (cs : List Char) (n : Nat) (hn : n < 2 ^ 64)
    (hcs : ∀ c ∈ cs, isDecimalDigit c) :
    ParseUintLoop cs n =
      if cs.foldl (fun a c => 10 * a + (c.toNat - 48)) n < 2 ^ 64
      then (cs.foldl (fun a c => 10 * a + (c.toNat - 48)) n, none)
      else (maxUint64, some NumError.ErrRange) := by
  induction cs generalizing n with
  | nil =>
    unfold ParseUintLoop
    rw [List.foldl_nil, if_pos hn]
  | cons c cs ih =>
    have hc : isDecimalDigit c := hcs c (List.mem_cons_self _ _)
    have hrest : ∀ c ∈ cs, isDecimalDigit c := fun x hx => hcs x (List.mem_cons_of_mem _ hx)
    have hge := foldl_digits_ge cs (10 * n + (c.toNat - 48))
    have hd : ¬ (c.toNat - 48 ≥ 10) := by unfold isDecimalDigit at hc; omega
    unfold ParseUintLoop
    rw [digitVal_of_digit c hc]
    simp only [hd, if_false, List.foldl_cons, maxUint64_eq]
    by_cases hcut : n ≥ 18446744073709551615 / 10 + 1
    · have hbig : ¬ (cs.foldl (fun a c => 10 * a + (c.toNat - 48)) (10 * n + (c.toNat - 48))
          < 2 ^ 64) := by omega
      simp only [hcut, if_true, hbig, if_false]
    · simp only [hcut, if_false]
      have h10 : n * 10 % 2 ^ 64 = n * 10 := Nat.mod_eq_of_lt (by omega)
      rw [h10]
      by_cases hover : n * 10 + (c.toNat - 48) < 2 ^ 64
      · have h1 : (n * 10 + (c.toNat - 48)) % 2 ^ 64 = n * 10 + (c.toNat - 48) :=
          Nat.mod_eq_of_lt hover
        have hno : ¬ (n * 10 + (c.toNat - 48) < n * 10 ∨
            n * 10 + (c.toNat - 48) > 18446744073709551615) := by omega
        rw [h1, if_neg hno, ih _ hover hrest, Nat.mul_comm n 10, maxUint64_eq]
      · have hwrap : (n * 10 + (c.toNat - 48)) % 2 ^ 64 < n * 10 := by omega
        have hbig : ¬ (cs.foldl (fun a c => 10 * a + (c.toNat - 48)) (10 * n + (c.toNat - 48))
            < 2 ^ 64) := by omega
        rw [if_pos (Or.inl hwrap), if_neg hbig]

/-- What the loop of `ParseUint` can return: without error all characters are digits; a
range error comes with the value `maxUint64`. -/
theorem ParseUintLoop_cases (cs : List Char) (n : Nat) :
    ((ParseUintLoop cs n).2 = none → ∀ c ∈ cs, isDecimalDigit c) ∧
    ((ParseUintLoop cs n).2 = some NumError.ErrRange → (ParseUintLoop cs n).1 = maxUint64) := by
  induction cs generalizing n with
  | nil => simp [ParseUintLoop]
  | cons c cs ih =>
    unfold ParseUintLoop
    cases hdv : digitVal c.toNat with
    | none => simp
    | some d =>
      simp only
      by_cases hd : d ≥ 10
      · simp [hd]
      · simp only [hd, if_false]
        have hc := digit_of_digitVal c d hdv hd
        split
        · simp
        · split
          · simp
          · obtain ⟨ih1, ih2⟩ := ih ((n * 10 % 2 ^ 64 + d) % 2 ^ 64)
            refine ⟨?_, ih2⟩
            intro h x hx
            rcases List.mem_cons.mp hx with rfl | hx
            · exact hc
            · exact ih1 h x hx

/-- A decimal digit is not a sign. -/
theorem pickSign_of_digit (c : Char) (cs : List Char) (h : isDecimalDigit c) :
    pickSign (c :: cs) = (false, c :: cs) := by
  unfold isDecimalDigit at h
  have h1 : c ≠ '+' := by
    intro h2
    rw [h2] at h
    simp at h
  have h2 : c ≠ '-' := by
    intro h2
    rw [h2] at h
    simp at h
  simp [pickSign, h1, h2]

/-- On a string of digits, with the sign set aside: the value when it fits `int64`, the range
error otherwise. -/
theorem ParseUint_digits (ds : List Char) (hne : ds ≠ []) (hds : ∀ c ∈ ds, isDecimalDigit c) :
    ParseUint ds =
      if decimalValue ds < 2 ^ 64 then (decimalValue ds, none)
      else (maxUint64, some NumError.ErrRange) := by
  cases ds with
  | nil => exact absurd rfl hne
  | cons c cs =>
    unfold ParseUint decimalValue
    exact ParseUintLoop_digits (c :: cs) 0 (by norm_num) hds

/-- `ParseInt` on a string that denotes the integer `z`: it returns `z` without error when
`z` is an `int64`, and a range error otherwise. -/
theorem ParseInt_denotes (s : String) (z : Int) (h : denotes s z) :
    (-(2 ^ 63) ≤ z ∧ z < 2 ^ 63 → ParseInt s = (z, none)) ∧
    (z < -(2 ^ 63) ∨ 2 ^ 63 ≤ z → (ParseInt s).2 = some NumError.ErrRange) := by
  obtain ⟨ds, hne, hds, hcase⟩ := h
  have hpu := ParseUint_digits ds hne hds
  have hmax := maxUint64_eq
  obtain ⟨c, cs, rfl⟩ := List.exists_cons_of_ne_nil hne
  have hsign := pickSign_of_digit c cs (hds c (List.mem_cons_self _ _))
  rcases hcase with ⟨hs, hz⟩ | ⟨hs, hz⟩ | ⟨hs, hz⟩
  · unfold ParseInt
    simp only [hs, hsign, hpu]
    by_cases hfit : decimalValue (c :: cs) < 2 ^ 64
    · simp only [hfit, if_true, reduceCtorEq, if_false, true_and]
      constructor
      · intro hr
        have h1 : ¬ (decimalValue (c :: cs) ≥ 2 ^ 63) := by omega
        simp only [h1, if_false, Bool.false_eq_true, false_and, toInt64]
        simp only [Prod.mk.injEq, and_true]
        omega
      · intro hr
        have h1 : (9223372036854775808 : Nat) ≤ decimalValue (c :: cs) := by omega
        simp [h1]
    · simp only [hfit, if_false, reduceCtorEq, true_and, hmax]
      constructor
      · intro hr
        omega
      · intro _
        simp
  · unfold ParseInt
    simp only [hs, pickSign, if_true, hpu]
    by_cases hfit : decimalValue (c :: cs) < 2 ^ 64
    · simp only [hfit, if_true, reduceCtorEq, if_false, true_and]
      constructor
      · intro hr
        have h1 : ¬ (decimalValue (c :: cs) ≥ 2 ^ 63) := by omega
        simp only [h1, if_false, Bool.false_eq_true, false_and, toInt64]
        simp only [Prod.mk.injEq, and_true]
        omega
      · intro hr
        have h1 : (9223372036854775808 : Nat) ≤ decimalValue (c :: cs) := by omega
        simp [h1]
    · simp only [hfit, if_false, reduceCtorEq, true_and, hmax]
      constructor
      · intro hr
        omega
      · intro _
        simp
  · unfold ParseInt
    have hpm : ('-' : Char) ≠ '+' := by decide
    simp only [hs, pickSign, hpm, if_false, if_true, hpu]
    by_cases hfit : decimalValue (c :: cs) < 2 ^ 64
    · simp only [hfit, if_true, reduceCtorEq, if_false, true_and, Bool.true_eq_false, false_and]
      constructor
      · intro hr
        have h1 : ¬ (decimalValue (c :: cs) > 2 ^ 63) := by omega
        simp only [h1, if_false, toInt64]
        simp only [Prod.mk.injEq, and_true]
        omega
      · intro hr
        have h1 : (9223372036854775808 : Nat) < decimalValue (c :: cs) := by omega
        simp [h1]
    · simp only [hfit, if_false, reduceCtorEq, true_and, hmax, Bool.true_eq_false, false_and]
      constructor
      · intro hr
        omega
      · intro _
        simp

/-- `ParseUint` without error: the string is not empty and holds digits only; a range error
comes with the value `maxUint64`. -/
theorem ParseUint_cases (ds : List Char) :
    ((ParseUint ds).2 = none → ds ≠ [] ∧ ∀ c ∈ ds, isDecimalDigit c) ∧
    ((ParseUint ds).2 = some NumError.ErrRange → (ParseUint ds).1 = maxUint64) := by
  cases ds with
  | nil => simp [ParseUint]
  | cons c cs =>
    obtain ⟨h1, h2⟩ := ParseUintLoop_cases (c :: cs) 0
    exact ⟨fun h => ⟨by simp, h1 h⟩, h2⟩

/-- When `ParseInt` returns no error, the string denotes an integer. -/
theorem denotes_of_ParseInt (s : String) (h : (ParseInt s).2 = none) : ∃ z, denotes s z := by
  unfold ParseInt at h
  cases hs : s.data with
  | nil => simp [hs] at h
  | cons c cs =>
    simp only [hs] at h
    obtain ⟨hok, hrange⟩ := ParseUint_cases (pickSign (c :: cs)).2
    have hmax := maxUint64_eq
    have hr : (ParseUint (pickSign (c :: cs)).2).2 = none := by
      cases hr2 : (ParseUint (pickSign (c :: cs)).2).2 with
      | none => rfl
      | some e =>
        exfalso
        cases e with
        | ErrSyntax => simp [hr2] at h
        | ErrRange =>
          have hv := hrange hr2
          rw [hmax] at hv
          simp only [hr2, hv] at h
          cases hneg : (pickSign (c :: cs)).1 <;> simp [hneg] at h
    obtain ⟨hne, hdig⟩ := hok hr
    unfold pickSign at hne hdig
    by_cases hplus : c = '+'
    · simp only [hplus, if_true] at hne hdig
      exact ⟨decimalValue cs, cs, hne, hdig, Or.inr (Or.inl ⟨by rw [hs, hplus], rfl⟩)⟩
    · by_cases hminus : c = '-'
      · have hpm : ¬ ('-' : Char) = '+' := by decide
        simp only [hminus, hpm, if_true, if_false] at hne hdig
        exact ⟨-(decimalValue cs : Int), cs, hne, hdig,
          Or.inr (Or.inr ⟨by rw [hs, hminus], rfl⟩)⟩
      · simp only [hplus, hminus, if_false] at hne hdig
        exact ⟨decimalValue (c :: cs), c :: cs, hne, hdig, Or.inl ⟨hs, rfl⟩⟩

/-- `ParseInt` returns no error exactly on the strings that denote an `int64`, and then it
returns the integer denoted. -/
theorem ParseInt_ok_iff (s : String) :
    ((ParseInt s).2 = none ↔ ∃ z, denotes s z ∧ -(2 ^ 63) ≤ z ∧ z < 2 ^ 63) ∧
    (∀ z, denotes s z → (ParseInt s).2 = none → (ParseInt s).1 = z) := by
  have key : ∀ z, denotes s z → (ParseInt s).2 = none →
      (-(2 ^ 63) ≤ z ∧ z < 2 ^ 63) ∧ (ParseInt s).1 = z := by
    intro z hz hok
    obtain ⟨hin, hout⟩ := ParseInt_denotes s z hz
    by_cases hr : -(2 ^ 63) ≤ z ∧ z < 2 ^ 63
    · exact ⟨hr, by rw [hin hr]⟩
    · have : z < -(2 ^ 63) ∨ 2 ^ 63 ≤ z := by omega
      rw [hout this] at hok
      cases hok
  constructor
  · constructor
    · intro hok
      obtain ⟨z, hz⟩ := denotes_of_ParseInt s hok
      exact ⟨z, hz, (key z hz hok).1⟩
    · rintro ⟨z, hz, hr⟩
      rw [(ParseInt_denotes s z hz).1 hr]
  · intro z hz hok
    exact (key z hz hok).2

/-! ## Theorems about `run` -/

/-- The command `up-to`, unfolded. -/
theorem run_up_to {σ : Type} (env : Env σ) (dir : String) (args : List String)
    (opts : List OptionsFunc) (w : World σ) :
    run env "up-to" dir args opts w =
      match args with
      | [] =>
        (some (Error.errorf
          "up-to must be of form: goose [OPTIONS] DRIVER DBSTRING up-to VERSION"), w)
      | arg0 :: _ =>
        if (ParseInt arg0).2 ≠ none then
          (some (Error.errorf ("version must be a number (got '" ++ arg0 ++ "')")), w)
        else
          call (Event.UpToCtx dir (ParseInt arg0).1) (env.UpToCtx dir (ParseInt arg0).1 opts) w := by
  simp [run]

/-- The command `down-to`, unfolded. -/
theorem run_down_to {σ : Type} (env : Env σ) (dir : String) (args : List String)
    (opts : List OptionsFunc) (w : World σ) :
    run env "down-to" dir args opts w =
      match args with
      | [] =>
        (some (Error.errorf
          "down-to must be of form: goose [OPTIONS] DRIVER DBSTRING down-to VERSION"), w)
      | arg0 :: _ =>
        if (ParseInt arg0).2 ≠ none then
          (some (Error.errorf ("version must be a number (got '" ++ arg0 ++ "')")), w)
        else
          call (Event.DownToCtx dir (ParseInt arg0).1)
            (env.DownToCtx dir (ParseInt arg0).1 opts) w := by
  simp [run]

/-- `ParseInt` returns no error exactly when the string parses as an `int64`. -/
theorem ParseInt_ok_iff_parses (s : String) :
    (ParseInt s).2 = none ↔ ∃ z, parsesInt64 s z := by
  rw [(ParseInt_ok_iff s).1]
  constructor
  · rintro ⟨z, hz, hr⟩
    exact ⟨z, hz, hr⟩
  · rintro ⟨z, hz, hr⟩
    exact ⟨z, hz, hr⟩

/-- The value that `ParseInt` returns on a string that parses as an `int64`. -/
theorem ParseInt_of_parses (s : String) (z : Int) (h : parsesInt64 s z) :
    ParseInt s = (z, none) :=
  (ParseInt_denotes s z h.1).1 h.2

/-- C6. For `up-to` and `down-to`: with no argument `run` returns the usage error; with a
first argument that does not parse as a base-10 signed 64-bit integer it returns the error
whose text is `version must be a number (got '`, the argument as it is, and `')`; in both
cases the world and its log are untouched; with a first argument that parses as `z` it calls
the handler once with `z`, whatever the other arguments are, and returns what the handler
returns. So the handler is called exactly when there is a first argument and it parses. -/
theorem run_version_commands {σ : Type} (env : Env σ) (dir : String) (args : List String)
    (opts : List OptionsFunc) (w : World σ) :
    (args = [] →
      run env "up-to" dir args opts w =
        (some (Error.errorf
          "up-to must be of form: goose [OPTIONS] DRIVER DBSTRING up-to VERSION"), w) ∧
      run env "down-to" dir args opts w =
        (some (Error.errorf
          "down-to must be of form: goose [OPTIONS] DRIVER DBSTRING down-to VERSION"), w)) ∧
    (∀ (arg0 : String) (rest : List String), args = arg0 :: rest →
      (¬ ∃ z, parsesInt64 arg0 z) →
      run env "up-to" dir args opts w =
        (some (Error.errorf ("version must be a number (got '" ++ arg0 ++ "')")), w) ∧
      run env "down-to" dir args opts w =
        (some (Error.errorf ("version must be a number (got '" ++ arg0 ++ "')")), w)) ∧
    (∀ (arg0 : String) (rest : List String) (z : Int), args = arg0 :: rest →
      parsesInt64 arg0 z →
      run env "up-to" dir args opts w =
        (liftErr (env.UpToCtx dir z opts w.st).1,
          { st := (env.UpToCtx dir z opts w.st).2, log := w.log ++ [Event.UpToCtx dir z] }) ∧
      run env "down-to" dir args opts w =
        (liftErr (env.DownToCtx dir z opts w.st).1,
          { st := (env.DownToCtx dir z opts w.st).2,
            log := w.log ++ [Event.DownToCtx dir z] })) ∧
    ((versionHandlerCalls ((run env "up-to" dir args opts w).2.log.drop w.log.length) ≠ [] ↔
        ∃ arg0 rest z, args = arg0 :: rest ∧ parsesInt64 arg0 z) ∧
     (versionHandlerCalls ((run env "down-to" dir args opts w).2.log.drop w.log.length) ≠ [] ↔
        ∃ arg0 rest z, args = arg0 :: rest ∧ parsesInt64 arg0 z)) := by
  rw [run_up_to, run_down_to]
  cases args with
  | nil => simp [versionHandlerCalls]
  | cons a rest =>
    by_cases hp : ∃ z, parsesInt64 a z
    · obtain ⟨z, hz⟩ := hp
      have hpi := ParseInt_of_parses a z hz
      refine ⟨by simp, ?_, ?_, ?_⟩
      · intro arg0 rest1 hargs hno
        injection hargs with h1 h2
        subst h1
        exact absurd ⟨z, hz⟩ hno
      · intro arg0 rest1 z1 hargs hz1
        injection hargs with h1 h2
        subst h1
        have hpi1 := ParseInt_of_parses a z1 hz1
        simp [hpi1, call, World.after]
      · simp only [hpi, call, World.after, ne_eq, not_true_eq_false, if_false,
          List.drop_left, versionHandlerCalls]
        constructor
        · simp only [List.filter_cons, List.filter_nil]
          exact ⟨fun _ => ⟨a, rest, z, rfl, hz⟩, fun _ => by simp⟩
        · simp only [List.filter_cons, List.filter_nil]
          exact ⟨fun _ => ⟨a, rest, z, rfl, hz⟩, fun _ => by simp⟩
    · have hbad : (ParseInt a).2 ≠ none := by
        rw [ne_eq, ParseInt_ok_iff_parses]
        exact hp
      refine ⟨by simp, ?_, ?_, ?_⟩
      · intro arg0 rest1 hargs _
        injection hargs with h1 h2
        subst h1
        simp [hbad]
      · intro arg0 rest1 z1 hargs hz1
        injection hargs with h1 h2
        subst h1
        exact absurd ⟨z1, hz1⟩ hp
      · simp only [if_pos hbad, List.drop_length, versionHandlerCalls, List.filter_nil, ne_eq,
          not_true_eq_false, false_iff, not_exists]
        constructor
        · intro arg0 rest1 z1 hc
          injection hc.1 with h1 h2
          subst h1
          exact hp ⟨z1, hc.2⟩
        · intro arg0 rest1 z1 hc
          injection hc.1 with h1 h2
          subst h1
          exact hp ⟨z1, hc.2⟩

/-- C6 on an example: `up-to 42 junk` calls `UpToCtx` once, with 42. -/
theorem run_version_commands_witness :
    run demoEnv "up-to" "migrations" ["42", "junk"] [] demoWorld =
      (liftErr (demoEnv.UpToCtx "migrations" 42 [] demoWorld.st).1,
        { st := (demoEnv.UpToCtx "migrations" 42 [] demoWorld.st).2,
          log := demoWorld.log ++ [Event.UpToCtx "migrations" 42] }) ∧
    run demoEnv "down-to" "migrations" ["42", "junk"] [] demoWorld =
      (liftErr (demoEnv.DownToCtx "migrations" 42 [] demoWorld.st).1,
        { st := (demoEnv.DownToCtx "migrations" 42 [] demoWorld.st).2,
          log := demoWorld.log ++ [Event.DownToCtx "migrations" 42] }) :=
  (run_version_commands demoEnv "migrations" ["42", "junk"] [] demoWorld).2.2.1 "42" ["junk"] 42
    rfl ⟨⟨['4', '2'], by decide, by decide, Or.inl ⟨rfl, rfl⟩⟩, by decide, by decide⟩

/-- C7, as stated, fails: `-1` denotes an integer below `minVersion`, and `run` hands it to
`UpToCtx` and to `DownToCtx` without an error of its own. -/
theorem run_negative_version_reaches_handler :
    denotes "-1" (-1) ∧ (-1 : Int) < minVersion ∧
    (run demoEnv "up-to" "migrations" ["-1"] [] demoWorld).1 = none ∧
    (run demoEnv "up-to" "migrations" ["-1"] [] demoWorld).2.log =
      [Event.UpToCtx "migrations" (-1)] ∧
    (run demoEnv "down-to" "migrations" ["-1"] [] demoWorld).1 = none ∧
    (run demoEnv "down-to" "migrations" ["-1"] [] demoWorld).2.log =
      [Event.DownToCtx "migrations" (-1)] :=
  ⟨⟨['1'], by decide, by decide, Or.inr (Or.inr ⟨rfl, rfl⟩)⟩, by decide, by decide, by decide,
    by decide, by decide⟩

/-- C7, amended. For an argument that denotes the integer `z`: when `z` lies outside the
`int64` range, that is below `-2^63` or above `maxVersion`, `run` with `up-to` or `down-to`
returns the error `version must be a number` and calls nothing; when `z` lies within it,
the negative values below `minVersion` included, `run` calls the handler once with `z`. -/
theorem run_version_range {σ : Type} (env : Env σ) (dir : String) (s : String)
    (rest : List String) (opts : List OptionsFunc) (w : World σ) (z : Int)
    (h : denotes s z) :
    ((z < -(2 ^ 63) ∨ maxVersion < z) →
      run env "up-to" dir (s :: rest) opts w =
        (some (Error.errorf ("version must be a number (got '" ++ s ++ "')")), w) ∧
      run env "down-to" dir (s :: rest) opts w =
        (some (Error.errorf ("version must be a number (got '" ++ s ++ "')")), w)) ∧
    ((-(2 ^ 63) ≤ z ∧ z ≤ maxVersion) →
      run env "up-to" dir (s :: rest) opts w =
        (liftErr (env.UpToCtx dir z opts w.st).1,
          { st := (env.UpToCtx dir z opts w.st).2, log := w.log ++ [Event.UpToCtx dir z] }) ∧
      run env "down-to" dir (s :: rest) opts w =
        (liftErr (env.DownToCtx dir z opts w.st).1,
          { st := (env.DownToCtx dir z opts w.st).2,
            log := w.log ++ [Event.DownToCtx dir z] })) := by
  obtain ⟨hin, hout⟩ := ParseInt_denotes s z h
  rw [run_up_to, run_down_to]
  constructor
  · intro hr
    have hbad : (ParseInt s).2 ≠ none := by
      rw [hout (by unfold maxVersion at hr; omega)]
      simp
    simp only [if_pos hbad, and_self]
  · intro hr
    have hpi := hin (by unfold maxVersion at hr; omega)
    simp [hpi, call, World.after]

/-- C7, amended, on the example of the claim: `9223372036854775808` is rejected. -/
theorem run_version_range_witness :
    run demoEnv "up-to" "migrations" ["9223372036854775808"] [] demoWorld =
      (some (Error.errorf ("version must be a number (got '" ++ "9223372036854775808" ++ "')")),
        demoWorld) ∧
    run demoEnv "down-to" "migrations" ["9223372036854775808"] [] demoWorld =
      (some (Error.errorf ("version must be a number (got '" ++ "9223372036854775808" ++ "')")),
        demoWorld) :=
  (run_version_range demoEnv "migrations" "9223372036854775808" [] [] demoWorld
    9223372036854775808
    ⟨"9223372036854775808".data, by decide, by decide, Or.inl ⟨rfl, by decide⟩⟩).1
    (Or.inr (by decide))

/-- An error text that does not end in `d` is not a `no such command` text. -/
theorem errorf_ne_no_such_command (q t : String) (h : t.data.getLast? ≠ some 'd') :
    some (Error.errorf t) ≠ some (Error.errorf (q ++ ": no such command")) := by
  intro heq
  injection heq with heq
  injection heq with heq
  apply h
  rw [heq, String.data_append]
  simp [List.getLast?_append]

/-- The `version must be a number` text ends in a closing bracket. -/
theorem version_text_last (a : String) :
    ("version must be a number (got '" ++ a ++ "')").data.getLast? ≠ some 'd' := by
  have h : ("version must be a number (got '" ++ a ++ "')").data =
      ("version must be a number (got '".data ++ a.data ++ ['\'']) ++ [')'] := by
    simp [String.data_append]
  rw [h, List.getLast?_concat]
  decide

/-- What `liftErr` returns is not an error built by `fmt.Errorf`. -/
theorem liftErr_ne_errorf (r : Option ErrorKind) (t : String) :
    liftErr r ≠ some (Error.errorf t) := by
  cases r <;> simp [liftErr]

/-- The lookup-Down-Up part of `RedoCtx` returns nil or the error of a collaborator. -/
theorem redoCurrent_ne_errorf {σ : Type} (env : Env σ) (option : options)
    (migrations : Migrations) (v : Int) (w : World σ) (t : String) :
    (redoCurrent env option migrations v w).1 ≠ some (Error.errorf t) := by
  rcases hc : env.Current migrations v with e | found
  · simp [redoCurrent, hc]
  · rcases hd : env.MigrationDownCtx { found with noVersioning := option.noVersioning } w.st
      with ⟨_ | e, s2⟩
    · rcases hu : env.MigrationUpCtx { found with noVersioning := option.noVersioning } s2
        with ⟨_ | e, s3⟩
      · simp [redoCurrent, hc, hd, hu, World.after]
      · simp [redoCurrent, hc, hd, hu, World.after]
    · simp [redoCurrent, hc, hd, World.after]

/-- `RedoCtx` returns nil or the error of a collaborator. -/
theorem RedoCtx_ne_errorf {σ : Type} (env : Env σ) (dir : String) (opts : List OptionsFunc)
    (w : World σ) (t : String) : (RedoCtx env dir opts w).1 ≠ some (Error.errorf t) := by
  rcases hc : env.CollectMigrations dir minVersion maxVersion w.st with ⟨e | migrations, s1⟩
  · simp [RedoCtx, hc]
  · by_cases hnv : (applyOptions opts).noVersioning = true
    · by_cases hlen : migrations.length = 0
      · simp [RedoCtx, hc, hnv, hlen]
      · simp only [RedoCtx, hc, hnv, if_true, dif_neg hlen]
        exact redoCurrent_ne_errorf _ _ _ _ _ _
    · rcases hg : env.GetDBVersionCtx s1 with ⟨e | v, s2⟩
      · simp [RedoCtx, hc, hnv, hg, World.after]
      · have hnv2 : (applyOptions opts).noVersioning = false := by simpa using hnv
        simp only [RedoCtx, hc, hnv2, World.after, hg]
        exact redoCurrent_ne_errorf _ _ _ _ _ _

/-- The error of `makeParams` is never one built by `fmt.Errorf`. -/
theorem makeParams_ne_errorf (args : List String) (t : String) :
    (makeParams args).2 ≠ some (Error.errorf t) := by
  obtain ⟨h1, h2⟩ := makeParams_outcome args
  by_cases hbad : 3 ≤ args.length ∧ ∃ p ∈ args.drop 2, '=' ∉ p.data
  · rw [h1 hbad]
    simp
  · rw [h2 hbad]
    simp

/-- C8. `run` returns the error whose text is the quoted command followed by
`: no such command` exactly when the command is not one of the eleven names, compared as it
is; in that case the world and its log are untouched, whatever the arguments and options. -/
theorem run_no_such_command {σ : Type} (env : Env σ) (command dir : String)
    (args : List String) (opts : List OptionsFunc) (w : World σ) :
    (command ∉ commandNames →
      run env command dir args opts w =
        (some (Error.errorf (env.Quote command ++ ": no such command")), w)) ∧
    ((run env command dir args opts w).1 =
        some (Error.errorf (env.Quote command ++ ": no such command")) ↔
      command ∉ commandNames) := by
  have hdefault : command ∉ commandNames →
      run env command dir args opts w =
        (some (Error.errorf (env.Quote command ++ ": no such command")), w) := by
    intro hnot
    simp only [commandNames, List.mem_cons, List.mem_singleton, not_or, List.mem_nil_iff,
      or_false] at hnot
    obtain ⟨h1, h2, h3, h4, h5, h6, h7, h8, h9, h10, h11⟩ := hnot
    unfold run
    split <;> first | rfl | (exfalso; simp_all)
  refine ⟨hdefault, ?_, fun hnot => by rw [hdefault hnot]⟩
  intro hret
  intro hmem
  simp only [commandNames, List.mem_cons, List.mem_singleton, List.mem_nil_iff, or_false] at hmem
  rcases hmem with rfl | rfl | rfl | rfl | rfl | rfl | rfl | rfl | rfl | rfl | rfl
  · exact liftErr_ne_errorf _ _ (by simpa [run, call] using hret)
  · exact liftErr_ne_errorf _ _ (by simpa [run, call] using hret)
  · rw [run_up_to] at hret
    cases args with
    | nil => exact errorf_ne_no_such_command _ _ (by decide) hret
    | cons a rest =>
      simp only at hret
      split at hret
      · exact errorf_ne_no_such_command _ _ (version_text_last a) hret
      · exact liftErr_ne_errorf _ _ hret
  · exact liftErr_ne_errorf _ _ (by simpa [run, call] using hret)
  · rw [run_down_to] at hret
    cases args with
    | nil => exact errorf_ne_no_such_command _ _ (by decide) hret
    | cons a rest =>
      simp only at hret
      split at hret
      · exact errorf_ne_no_such_command _ _ (version_text_last a) hret
      · exact liftErr_ne_errorf _ _ hret
  · cases args with
    | nil =>
      have : (run env "create" dir [] opts w).1 = some (Error.errorf
          "create must be of form: goose [OPTIONS] DRIVER DBSTRING create NAME [go|sql]") := by
        simp [run]
      rw [this] at hret
      exact errorf_ne_no_such_command _ _ (by decide) hret
    | cons a rest =>
      have hmp := makeParams_ne_errorf (a :: rest) (env.Quote "create" ++ ": no such command")
      rcases hp : makeParams (a :: rest) with ⟨params, _ | err⟩
      · simp only [run, hp] at hret
        exact liftErr_ne_errorf _ _ hret
      · simp only [run, hp] at hret
        rw [hp] at hmp
        exact hmp hret
  · exact RedoCtx_ne_errorf _ _ _ _ _ (by simpa [run] using hret)
  · exact liftErr_ne_errorf _ _ (by simpa [run, call] using hret)
  · exact liftErr_ne_errorf _ _ (by simpa [run, call] using hret)
  · exact liftErr_ne_errorf _ _ (by simpa [run, call] using hret)
  · exact liftErr_ne_errorf _ _ (by simpa [run, call] using hret)

/-- C8 on an example: the names are compared as they are, so `Up` is no command. -/
theorem run_no_such_command_witness :
    run demoEnv "Up" "migrations" ["1"] [] demoWorld =
      (some (Error.errorf (demoEnv.Quote "Up" ++ ": no such command")), demoWorld) :=
  (run_no_such_command demoEnv "Up" "migrations" ["1"] [] demoWorld).1 (by decide)

/-! ## Theorems about sequential `create` -/

/-- The character of a digit value below ten is that decimal digit. -/
theorem digitChar_digit (d : Nat) (h : d < 10) :
    isDecimalDigit (Nat.digitChar d) ∧ (Nat.digitChar d).toNat - 48 = d := by
  interval_cases d <;> decide

/-- The digits that `Nat.toDigitsCore` puts in front of the accumulator, given enough fuel:
decimal digits, at least one, with the value `n`. -/
theorem toDigitsCore_digits (fuel n : Nat) (ds : List Char) (h : n < fuel) :
    ∃ pre : List Char, Nat.toDigitsCore 10 fuel n ds = pre ++ ds ∧ pre ≠ [] ∧
      (∀ c ∈ pre, isDecimalDigit c) ∧ decimalValue pre = n := by
  induction fuel generalizing n ds with
  | zero => omega
  | succ fuel ih =>
    obtain ⟨hdig, hval⟩ := digitChar_digit (n % 10) (Nat.mod_lt _ (by norm_num))
    unfold Nat.toDigitsCore
    by_cases h0 : n / 10 = 0
    · refine ⟨[Nat.digitChar (n % 10)], by simp [h0], by simp, by simpa using hdig, ?_⟩
      simp only [decimalValue, List.foldl_cons, List.foldl_nil, hval]
      omega
    · obtain ⟨pre, hpre, _, hall, hv⟩ := ih (n / 10) (Nat.digitChar (n % 10) :: ds) (by omega)
      refine ⟨pre ++ [Nat.digitChar (n % 10)], by simp [h0, hpre], by simp, ?_, ?_⟩
      · intro c hc
        rcases List.mem_append.mp hc with hc | hc
        · exact hall c hc
        · rw [List.mem_singleton.mp hc]
          exact hdig
      · unfold decimalValue at hv ⊢
        rw [List.foldl_append, hv]
        simp only [List.foldl_cons, List.foldl_nil, hval]
        omega

/-- Zeros on the left do not change the value. -/
theorem decimalValue_zeros (k : Nat) (l : List Char) :
    decimalValue (List.replicate k '0' ++ l) = decimalValue l := by
  unfold decimalValue
  rw [List.foldl_append]
  congr 1
  induction k with
  | zero => rfl
  | succ k ih =>
    rw [List.replicate_succ, List.foldl_cons]
    exact ih

/-- The rendering `pad5`: decimal digits only, at least five of them and exactly five below
100000, with the value `n`. -/
theorem pad5_digits (n : Nat) :
    (∀ c ∈ (pad5 n).data, isDecimalDigit c) ∧ decimalValue (pad5 n).data = n ∧
    5 ≤ (pad5 n).data.length ∧ (n < 100000 → (pad5 n).data.length = 5) := by
  obtain ⟨pre, hpre, hne, hall, hv⟩ := toDigitsCore_digits (n + 1) n [] (by omega)
  have htd : Nat.toDigits 10 n = pre := by
    unfold Nat.toDigits
    rw [hpre, List.append_nil]
  unfold pad5
  rw [htd]
  refine ⟨?_, ?_, ?_, ?_⟩
  · intro c hc
    rcases List.mem_append.mp hc with hc | hc
    · rw [(List.mem_replicate.mp hc).2]
      decide
    · exact hall c hc
  · show decimalValue (List.replicate (5 - pre.length) '0' ++ pre) = n
    rw [decimalValue_zeros, hv]
  · simp only [List.length_append, List.length_replicate]
    omega
  · intro hlt
    have hlen : pre.length ≤ 5 := by
      rw [← htd]
      have := Nat.toDigitsCore_length 10 (by norm_num) (n + 1) n 5 (by omega) (by norm_num)
      exact this
    simp only [List.length_append, List.length_replicate]
    omega

/-- The leading digits of digits followed by an underscore. -/
theorem takeWhile_digits_underscore (l rest : List Char) (h : ∀ c ∈ l, isDecimalDigit c) :
    (l ++ '_' :: rest).takeWhile (fun c => decide (isDecimalDigit c)) = l := by
  induction l with
  | nil =>
    have : ¬ isDecimalDigit '_' := by decide
    simp [this]
  | cons c cs ih =>
    have hc : isDecimalDigit c := h c (List.mem_cons_self _ _)
    simp only [List.cons_append, List.takeWhile_cons, hc, decide_True, if_true]
    rw [ih (fun x hx => h x (List.mem_cons_of_mem _ hx))]

/-- The number a sequential file name starts with. -/
theorem numericPrefix_pad5 (name : String) (n : Nat) (rest : List Char)
    (h : name.data = (pad5 n).data ++ '_' :: rest) : numericPrefix name = n := by
  unfold numericPrefix
  rw [h, takeWhile_digits_underscore _ _ (pad5_digits n).1, (pad5_digits n).2.1]

/-- One `create` in a directory with sequential names: if the template renders, the
artifact is appended under the next number, and the names stay sequential. -/
theorem Create_next (camel slug : String → String) (dir : Directory) (name ty : String)
    (params : GoMap) (tmpl : TemplateContext → Except ErrorKind String) (content : String)
    (hseq : sequentialNames dir)
    (htmpl :
      tmpl { Values := params, CamelName := camel name, Version := pad5 (dir.length + 1) } =
        Except.ok content) :
    Create camel slug dir name ty params tmpl =
      Except.ok (dir ++ [(pad5 (dir.length + 1) ++ "_" ++ slug name ++ "." ++ ty, content)]) ∧
    sequentialNames
      (dir ++ [(pad5 (dir.length + 1) ++ "_" ++ slug name ++ "." ++ ty, content)]) := by
  have hname : (pad5 (dir.length + 1) ++ "_" ++ slug name ++ "." ++ ty).data =
      (pad5 (dir.length + 1)).data ++ '_' :: ((slug name).data ++ '.' :: ty.data) := by
    simp [String.data_append]
  constructor
  · unfold Create
    simp only [htmpl]
    have hfree : dir.any (fun f => decide (f.1 =
        pad5 (dir.length + 1) ++ "_" ++ slug name ++ "." ++ ty)) = false := by
      rw [List.any_eq_false]
      intro f hf
      obtain ⟨i, hget⟩ := List.mem_iff_get.mp hf
      obtain ⟨rest, hrest⟩ := hseq i.1 i.2
      rw [hget] at hrest
      have h1 := numericPrefix_pad5 f.1 _ rest hrest
      intro heq
      have heq2 : f.1 = pad5 (dir.length + 1) ++ "_" ++ slug name ++ "." ++ ty := by
        simpa using heq
      have h2 := numericPrefix_pad5 f.1 (dir.length + 1) _ (by rw [heq2]; exact hname)
      have := i.2
      omega
    rw [hfree]
    simp
  · intro i hi
    rw [List.length_append, List.length_singleton] at hi
    by_cases hlt : i < dir.length
    · obtain ⟨rest, hrest⟩ := hseq i hlt
      refine ⟨rest, ?_⟩
      rw [List.get_eq_getElem, List.getElem_append_left hlt]
      simpa using hrest
    · have hi2 : i = dir.length := by omega
      subst hi2
      refine ⟨(slug name).data ++ '.' :: ty.data, ?_⟩
      rw [List.get_eq_getElem, List.getElem_append_right (Nat.le_refl _)]
      simp [hname]

/-- Successive `create` invocations on a directory with sequential names, with templates
that render: all succeed, and the artifacts are appended in order under the next numbers. -/
theorem createAll_names (camel slug : String → String) (reqs : List CreateRequest)
    (dir0 : Directory) (hseq : sequentialNames dir0)
    (htmpl : ∀ r ∈ reqs, ∀ c, ∃ content, r.tmpl c = Except.ok content) :
    ∃ dir, createAll camel slug reqs dir0 = Except.ok dir ∧ sequentialNames dir ∧
      dir.map Prod.fst = dir0.map Prod.fst ++ (reqs.enumFrom dir0.length).map (fun p =>
        pad5 (p.1 + 1) ++ "_" ++ slug p.2.name ++ "." ++ p.2.migrationType) := by
  induction reqs generalizing dir0 with
  | nil => exact ⟨dir0, rfl, hseq, by simp⟩
  | cons r rest ih =>
    obtain ⟨content, hcontent⟩ := htmpl r (List.mem_cons_self _ _)
      { Values := r.params, CamelName := camel r.name, Version := pad5 (dir0.length + 1) }
    obtain ⟨hcreate, hseq1⟩ := Create_next camel slug dir0 r.name r.migrationType r.params
      r.tmpl content hseq hcontent
    obtain ⟨dir, hdir, hseq2, hnames⟩ := ih _ hseq1
      (fun q hq => htmpl q (List.mem_cons_of_mem _ hq))
    refine ⟨dir, ?_, hseq2, ?_⟩
    · unfold createAll
      rw [hcreate]
      exact hdir
    · rw [hnames]
      simp [List.enumFrom_cons]

/-- C9. Sequential `create`, for invocations whose templates render. In any directory the
identifier handed to the template is the number of existing artifacts plus one, rendered by
`pad5`, and the artifact is appended under that identifier unless its name exists already.
`pad5` renders decimal digits, five of them below 100000 (zeros on the left) and never
fewer, with the value of the identifier. Hence successive invocations from an empty
directory all succeed and produce as many artifacts as there are invocations, named in
creation order `pad5 1`, `pad5 2`, and so on, each followed by an underscore, the slug and
the extension; and one invocation in an empty directory renders Version `00001` and leaves
exactly one artifact. -/
theorem Create_sequential (camel slug : String → String) (reqs : List CreateRequest)
    (htmpl : ∀ r ∈ reqs, ∀ c, ∃ content, r.tmpl c = Except.ok content) :
    (∀ r ∈ reqs, ∀ dir : Directory, ∃ content,
      r.tmpl { Values := r.params, CamelName := camel r.name,
               Version := pad5 (dir.length + 1) } = Except.ok content ∧
      (Create camel slug dir r.name r.migrationType r.params r.tmpl =
          Except.ok (dir ++
            [(pad5 (dir.length + 1) ++ "_" ++ slug r.name ++ "." ++ r.migrationType, content)]) ∨
        ((pad5 (dir.length + 1) ++ "_" ++ slug r.name ++ "." ++ r.migrationType)
            ∈ dir.map Prod.fst ∧
          Create camel slug dir r.name r.migrationType r.params r.tmpl =
            Except.error ErrorKind.CreateConflictError))) ∧
    (∀ n, (∀ c ∈ (pad5 n).data, isDecimalDigit c) ∧ decimalValue (pad5 n).data = n ∧
      5 ≤ (pad5 n).data.length ∧ (n < 100000 → (pad5 n).data.length = 5)) ∧
    (∃ dir, createAll camel slug reqs [] = Except.ok dir ∧ dir.length = reqs.length ∧
      dir.map Prod.fst = reqs.enum.map (fun p =>
        pad5 (p.1 + 1) ++ "_" ++ slug p.2.name ++ "." ++ p.2.migrationType) ∧
      ∀ (i : Nat) (h : i < dir.length), numericPrefix (dir.get ⟨i, h⟩).1 = i + 1) ∧
    (∀ r ∈ reqs, ∃ content,
      r.tmpl { Values := r.params, CamelName := camel r.name, Version := "00001" }
        = Except.ok content ∧
      Create camel slug [] r.name r.migrationType r.params r.tmpl =
        Except.ok [("00001" ++ "_" ++ slug r.name ++ "." ++ r.migrationType, content)]) := by
  have hempty : sequentialNames [] := by
    intro i hi
    simp at hi
  refine ⟨?_, pad5_digits, ?_, ?_⟩
  · intro r hr dir
    obtain ⟨content, hcontent⟩ := htmpl r hr
      { Values := r.params, CamelName := camel r.name, Version := pad5 (dir.length + 1) }
    refine ⟨content, hcontent, ?_⟩
    unfold Create
    simp only [hcontent]
    by_cases hany : dir.any (fun f => decide (f.1 =
        pad5 (dir.length + 1) ++ "_" ++ slug r.name ++ "." ++ r.migrationType)) = true
    · right
      rw [if_pos hany]
      refine ⟨?_, rfl⟩
      rw [List.any_eq_true] at hany
      obtain ⟨f, hf, hfe⟩ := hany
      rw [List.mem_map]
      exact ⟨f, hf, by simpa using hfe⟩
    · left
      rw [if_neg hany]
  · obtain ⟨dir, hdir, hseq, hnames⟩ := createAll_names camel slug reqs [] hempty htmpl
    have hnames2 : dir.map Prod.fst = reqs.enum.map (fun p =>
        pad5 (p.1 + 1) ++ "_" ++ slug p.2.name ++ "." ++ p.2.migrationType) := by
      simpa [List.enum] using hnames
    have hlen : dir.length = reqs.length := by
      have := congrArg List.length hnames2
      simpa using this
    refine ⟨dir, hdir, hlen, hnames2, ?_⟩
    intro i hi
    obtain ⟨rest, hrest⟩ := hseq i hi
    exact numericPrefix_pad5 _ _ rest hrest
  · intro r hr
    have h1 : pad5 (([] : Directory).length + 1) = "00001" := by decide
    obtain ⟨content, hcontent⟩ := htmpl r hr
      { Values := r.params, CamelName := camel r.name, Version := "00001" }
    refine ⟨content, hcontent, ?_⟩
    have hnext := (Create_next camel slug [] r.name r.migrationType r.params r.tmpl content
      hempty (by rw [h1]; exact hcontent)).1
    rw [hnext, h1, List.nil_append]

/-- C9 on the four invocations of `TestSequential`: four artifacts, numbered 00001 to 00004
in creation order, as the evaluation of the four invocations shows as well. -/
theorem Create_sequential_witness :
    (∃ dir, createAll sameName sameName fourRequests [] = Except.ok dir ∧
      dir.length = fourRequests.length ∧
      dir.map Prod.fst = fourRequests.enum.map (fun p =>
        pad5 (p.1 + 1) ++ "_" ++ sameName p.2.name ++ "." ++ p.2.migrationType) ∧
      ∀ (i : Nat) (h : i < dir.length), numericPrefix (dir.get ⟨i, h⟩).1 = i + 1) ∧
    (createAll sameName sameName fourRequests []).toOption.map (fun d => d.map Prod.fst) =
      some ["00001_create_table.go", "00002_add_users.go", "00003_add_indices.go",
        "00004_update_users.go"] :=
  ⟨(Create_sequential sameName sameName fourRequests (by
    intro r hr c
    simp only [fourRequests, List.map_cons, List.map_nil, List.mem_cons, List.mem_singleton,
      List.mem_nil_iff, or_false] at hr
    rcases hr with rfl | rfl | rfl | rfl <;> exact ⟨_, rfl⟩)).2.2.1, by decide⟩

end Goose
